import Mathlib

/-!
Verification development for the esplora-tapyrus indexer core.

The Rust sources under `src/` are shallowly embedded as executable Lean
definitions: machine integers become `Nat`/`Int` (overflow is irrelevant at
the points modelled, and is noted where the source could overflow), hash
maps and vectors become association lists and lists, fallible code returns
`Except`/`Option`.  Iteration order of Rust `HashMap`s is modelled by list
order wherever the result is order-insensitive (sums, sets of rows).
-/

set_option maxHeartbeats 1000000

deriving instance DecidableEq for Except

namespace Esplora

/-- A byte (value < 256 where it matters). -/
abbrev Byte := Nat

/-- Scripts are raw byte strings (`tapyrus::Script` wraps a byte vector). -/
abbrev Script := List Byte

/-- Opcode `OP_RETURN` (0x6a). -/
def OP_RETURN_BYTE : Byte := 0x6a

/-- Opcode `OP_COLOR` (0xbc), separating the color prefix from the base script. -/
def OP_COLOR_BYTE : Byte := 0xbc

/-- Valid token-type tags of a 33-byte color identifier (0xc1 reissuable,
0xc2 non-reissuable, 0xc3 NFT), per the colored scripts in the repository's
tests (`21 c1 … bc …`). -/
def validColorType (b : Byte) : Bool := b == 0xc1 || b == 0xc2 || b == 0xc3

/-- `Script::split_color` of the tapyrus library, as used throughout the
source: a colored script is `0x21 ∥ color-id(33) ∥ OP_COLOR ∥ base-script`
(the spec: "its prefix encodes a 33-byte color identifier; stripping the
prefix yields the underlying script").  Returns the 33-byte color id and the
base script.  The library's additional p2pkh/p2sh shape check on the base
script is abstracted away; no claim depends on which base shapes qualify. -/
def split_color (s : Script) : Option (List Byte × Script) :=
  if 35 < s.length && (s.headD 0 == 0x21) && ((s.drop 34).headD 0 == OP_COLOR_BYTE)
      && validColorType ((s.drop 1).headD 0)
  then some ((s.drop 1).take 33, s.drop 35) else none

/-- `Script::is_colored` of the tapyrus library: the script carries a color
prefix. -/
def is_colored (s : Script) : Bool := (split_color s).isSome

/-- Transaction ids abstracted as naturals (only identity and rendering are
used). -/
abbrev Txid := Nat

/-- `tapyrus::OutPoint`: reference to a previous output. -/
structure OutPoint where
  txid : Txid
  vout : Nat
deriving DecidableEq

/-- `OutPoint::is_null` (coinbase marker): all-zero txid and vout `u32::MAX`. -/
def OutPoint.is_null (o : OutPoint) : Bool := o.txid == 0 && o.vout == 0xffffffff

/-- `tapyrus::TxOut`: value in tapyrus plus locking script. -/
structure TxOut where
  value : Nat
  script_pubkey : Script
deriving DecidableEq

/-- `tapyrus::TxIn` (script_sig and witness are irrelevant to the claims). -/
structure TxIn where
  previous_output : OutPoint
deriving DecidableEq

/-- `tapyrus::Transaction` (version and lock_time are irrelevant to the
claims).  `malfix_txid` models `Transaction::malfix_txid()` (an injective
hash of the transaction, carried as a field), and `weight` models
`Transaction::get_weight()`. -/
structure Transaction where
  malfix_txid : Txid
  weight : Nat
  input : List TxIn
  output : List TxOut
deriving DecidableEq

/-- `Transaction::is_coin_base` of the tapyrus library: exactly one input and
its previous output is null. -/
def Transaction.is_coin_base (tx : Transaction) : Bool :=
  match tx.input with
  | [i] => i.previous_output.is_null
  | _ => false

/-- Modelled from the spec: `has_prevout` (from `util/mod.rs`, which is not
among the provided sources) — an input references a prior (txid, vout)
unless it is the coinbase null outpoint. -/
def has_prevout (txin : TxIn) : Bool := ! txin.previous_output.is_null

/-! ## `util/fees.rs` -/

/-- `VSIZE_BIN_WIDTH` (in vbytes). -/
def VSIZE_BIN_WIDTH : Nat := 50000

/-- `TxFeeInfo`.  `fee_per_vbyte` is `f32` in the source; it is modelled as a
rational, which preserves the ordering used by the histogram (the source
values are quotients `fee / vsize` of machine integers). -/
structure TxFeeInfo where
  fee : Nat
  vsize : Nat
  fee_per_vbyte : ℚ
deriving DecidableEq

/-- `get_tx_fee` (`util/fees.rs:25`): 0 for a coinbase; otherwise the sum of
the values of the non-colored previous outputs minus the sum of the values
of the non-colored outputs.  `prevouts` is the `HashMap<u32, &TxOut>` of the
source as an association list.  (The source subtracts in `u64`; the claims
do not exercise underflow, and `Nat` subtraction is used.) -/
def get_tx_fee (tx : Transaction) (prevouts : List (Nat × TxOut)) : Nat :=
  if tx.is_coin_base then 0
  else
    (((prevouts.map Prod.snd).filter
        (fun p => ! is_colored p.script_pubkey)).map TxOut.value).sum
      - ((tx.output.filter (fun o => ! is_colored o.script_pubkey)).map TxOut.value).sum

/-- The fee computation as claim C9 words it: the **total** input value
(colored included) minus the non-colored output value.  Written from the
claim, for comparison with `get_tx_fee`. -/
def get_tx_fee_claimed (tx : Transaction) (prevouts : List (Nat × TxOut)) : Nat :=
  if tx.is_coin_base then 0
  else
    ((prevouts.map Prod.snd).map TxOut.value).sum
      - ((tx.output.filter (fun o => ! is_colored o.script_pubkey)).map TxOut.value).sum

/-- Sum of the values of the non-colored outputs of a list. -/
def nonColoredValueSum (outs : List TxOut) : Nat :=
  ((outs.filter (fun o => ! is_colored o.script_pubkey)).map TxOut.value).sum

/-- A 25-byte p2pkh-shaped base script. -/
def p2pkhScript : Script := [0x76, 0xa9, 0x14] ++ List.replicate 20 0x37 ++ [0x88, 0xac]

/-- A colored (cp2pkh) script: 33-byte color id prefix before `p2pkhScript`. -/
def coloredScript : Script :=
  0x21 :: (0xc1 :: List.replicate 32 0x3c) ++ [OP_COLOR_BYTE] ++ p2pkhScript

/-- The transaction of the repository's `test_get_tx_fee`: one uncolored
output of 9500 and one colored output of 19000, single non-null input. -/
def feeTx : Transaction :=
  { malfix_txid := 42
    weight := 400
    input := [⟨⟨7, 0⟩⟩]
    output := [⟨9500, p2pkhScript⟩, ⟨19000, coloredScript⟩] }

/-- The prevouts of the repository's `test_get_tx_fee`: 10000 uncolored and
20000 colored. -/
def feePrevouts : List (Nat × TxOut) :=
  [(0, ⟨10000, p2pkhScript⟩), (1, ⟨20000, coloredScript⟩)]

/-! ### `make_fee_histogram` (`util/fees.rs:44`) -/

/-- The entries after `sort_unstable_by` ascending fee rate and `.rev()`:
descending fee-rate order, as the loop consumes them. -/
def sortedEntriesDesc (entries : List TxFeeInfo) : List TxFeeInfo :=
  (entries.mergeSort (fun a b => a.fee_per_vbyte ≤ b.fee_per_vbyte)).reverse

/-- The loop of `make_fee_histogram`: mutable `bin_size` and `last_fee_rate`
threaded through; a bin is pushed when it exceeds `VSIZE_BIN_WIDTH` and the
fee rate changes, and a final non-empty bin is pushed at the end. -/
def histogramLoop : List TxFeeInfo → Nat → ℚ → List (ℚ × Nat)
  | [], bin_size, last_fee_rate =>
    if 0 < bin_size then [(last_fee_rate, bin_size)] else []
  | e :: rest, bin_size, last_fee_rate =>
    if VSIZE_BIN_WIDTH < bin_size ∧ last_fee_rate ≠ e.fee_per_vbyte then
      (last_fee_rate, bin_size) :: histogramLoop rest e.vsize e.fee_per_vbyte
    else
      histogramLoop rest (bin_size + e.vsize) e.fee_per_vbyte

/-- `make_fee_histogram` (`util/fees.rs:44`). -/
def make_fee_histogram (entries : List TxFeeInfo) : List (ℚ × Nat) :=
  histogramLoop (sortedEntriesDesc entries) 0 0

/-- Fee rate of the last entry of a group (0 for an empty group). -/
def rateOfLast (g : List TxFeeInfo) : ℚ := (g.getLast?).elim 0 TxFeeInfo.fee_per_vbyte

/-- Total virtual size of a group of fee infos. -/
def vsizeSum (g : List TxFeeInfo) : Nat := (g.map TxFeeInfo.vsize).sum

/-- Descending fee-rate order. -/
def DescRate (a b : TxFeeInfo) : Prop := b.fee_per_vbyte ≤ a.fee_per_vbyte

/-- Two concrete fee infos used to instantiate the histogram theorem. -/
def feeInfoA : TxFeeInfo := ⟨120000, 60000, 2⟩

/-- A second concrete fee info (lower fee rate). -/
def feeInfoB : TxFeeInfo := ⟨1000, 1000, 1⟩

/-! ## Chain query data model (`new_index/schema.rs`) -/

/-- `util::BlockId` (hash abstracted to a natural). -/
structure BlockId where
  height : Nat
  hash : Nat
deriving DecidableEq

/-- Color identifiers: the 33 bytes of the prefix; `ColorIdentifier::default()`
(uncolored) is modelled by `[]`. -/
abbrev ColorId := List Byte

/-- `ColorIdentifier::default()`: the reserved uncolored value. -/
def defaultColorId : ColorId := []

/-- `tapyrus::Network` tag used to derive asset ids. -/
inductive Network where
  | prod
  | dev
deriving DecidableEq

/-- `openassets_tapyrus::AssetId`: derived from a script under a network tag
by hashing; modelled as the (script, network) pair itself, i.e. hashing is
abstracted as an injective constructor (only construction and equality are
used by the source). -/
structure AssetId where
  script : Script
  network : Network
deriving DecidableEq

/-- `AssetId::new(script, network)`. -/
def AssetId.new (script : Script) (network : Network) : AssetId := ⟨script, network⟩

/-- Open-assets metadata bytes (opaque). -/
abbrev Metadata := List Byte

/-- `open_assets::OpenAsset`. -/
structure OpenAsset where
  asset_id : AssetId
  asset_quantity : Nat
  metadata : Metadata
deriving DecidableEq

/-- `TxHistoryInfo` (`schema.rs`): Funding or Spending entry of a script's
history. -/
inductive TxHistoryInfo where
  | Funding (txid : Txid) (vout : Nat) (color_id : ColorId) (value : Nat)
      (open_asset : Option OpenAsset)
  | Spending (txid : Txid) (vin : Nat) (prev_txid : Txid) (prev_vout : Nat)
      (color_id : ColorId) (value : Nat)
deriving DecidableEq

/-- `TxHistoryInfo::get_txid`. -/
def TxHistoryInfo.get_txid : TxHistoryInfo → Txid
  | .Funding txid _ _ _ _ => txid
  | .Spending txid _ _ _ _ _ => txid

/-- `TxHistoryInfo::get_funded_outpoint`. -/
def TxHistoryInfo.get_funded_outpoint : TxHistoryInfo → OutPoint
  | .Funding txid vout _ _ _ => ⟨txid, vout⟩
  | .Spending _ _ prev_txid prev_vout _ _ => ⟨prev_txid, prev_vout⟩

/-- A `TxHistoryRow` of one script hash, as decoded from a scan (the code
byte and the hash are fixed by the scanned prefix). -/
structure TxHistoryRow where
  height : Nat
  txinfo : TxHistoryInfo
deriving DecidableEq

/-- `Utxo` (`new_index/mod.rs`). -/
structure Utxo where
  txid : Txid
  vout : Nat
  color_id : ColorId
  value : Nat
  confirmed : Option BlockId
deriving DecidableEq

/-- `OutPoint::from(&Utxo)`. -/
def OutPoint.fromUtxo (u : Utxo) : OutPoint := ⟨u.txid, u.vout⟩

/-- The working UTXO map `UtxoMap = HashMap<OutPoint, (BlockId, ColorIdentifier, u64)>`
as an association list with pairwise-distinct keys (maintained by
`utxoInsert`). -/
abbrev UtxoMap := List (OutPoint × (BlockId × ColorId × Nat))

/-- `HashMap::insert`: replace the value when the key is present, append
otherwise. -/
def utxoInsert (m : UtxoMap) (k : OutPoint) (v : BlockId × ColorId × Nat) : UtxoMap :=
  if (m.lookup k).isSome then
    m.map (fun p => if p.1 = k then (k, v) else p)
  else m ++ [(k, v)]

/-- `HashMap::remove`. -/
def utxoRemove (m : UtxoMap) (k : OutPoint) : UtxoMap :=
  m.filter (fun p => ! (p.1 == k))

/-- One iteration of `utxo_delta`'s fold (`schema.rs:566-571`): a Funding row
inserts the funded outpoint, a Spending row removes it. -/
def utxoStep (m : UtxoMap) (rb : TxHistoryRow × BlockId) : UtxoMap :=
  match rb.1.txinfo with
  | .Funding _ _ color_id value _ =>
    utxoInsert m rb.1.txinfo.get_funded_outpoint (rb.2, color_id, value)
  | .Spending _ _ _ _ _ _ => utxoRemove m rb.1.txinfo.get_funded_outpoint

/-- Error kind of the query layer (`errors.rs`); only `TooPopular` is
relevant here. -/
inductive QueryErr where
  | TooPopular
deriving DecidableEq

/-- `history_iter_scan(b'H', scripthash, start_height)` followed by the
`filter_map(tx_confirming_block)` of `utxo_delta`: `rows` is the script's
decoded history rows in ascending key order (justified by
`tx_history_key_order`); the scan keeps rows with height ≥ `start_height`,
and only rows whose transaction is confirmed in the best chain survive. -/
def confirmedRows (confirming : Txid → Option BlockId) (rows : List TxHistoryRow)
    (start_height : Nat) : List (TxHistoryRow × BlockId) :=
  (rows.filter (fun r => start_height ≤ r.height)).filterMap
    (fun r => (confirming r.txinfo.get_txid).map (fun b => (r, b)))

/-- The loop of `ChainQuery::utxo_delta` (`schema.rs:563-577`): fold the
confirmed rows, tracking `lastblock` and `processed_items`, bailing with
`TooPopular` as soon as the working map's size exceeds `limit`. -/
def utxo_delta_loop (limit : Nat) :
    List (TxHistoryRow × BlockId) → UtxoMap → Option Nat → Nat →
    Except QueryErr (UtxoMap × Option Nat × Nat)
  | [], utxos, lastblock, processed => .ok (utxos, lastblock, processed)
  | rb :: rest, utxos, _, processed =>
    let utxos' := utxoStep utxos rb
    if limit < utxos'.length then .error .TooPopular
    else utxo_delta_loop limit rest utxos' (some rb.2.hash) (processed + 1)

/-- `ChainQuery::utxo_delta` (`schema.rs:541`). -/
def ChainQuery.utxo_delta (confirming : Txid → Option BlockId) (rows : List TxHistoryRow)
    (init_utxos : UtxoMap) (start_height limit : Nat) :
    Except QueryErr (UtxoMap × Option Nat × Nat) :=
  utxo_delta_loop limit (confirmedRows confirming rows start_height) init_utxos none 0

/-- Formatting of the final map as `Utxo` objects (`schema.rs:529-538`). -/
def utxoToItem (e : OutPoint × (BlockId × ColorId × Nat)) : Utxo :=
  { txid := e.1.txid, vout := e.1.vout, color_id := e.2.2.1, value := e.2.2.2
    confirmed := some e.2.1 }

/-- `ChainQuery::utxo` (`schema.rs:495`).  `cache` is the deserialized
`U|scripthash` cache row after best-chain validation (`None` when absent or
orphaned); the cache write-back is a database side effect and not part of
the returned value. -/
def ChainQuery.utxo (confirming : Txid → Option BlockId) (rows : List TxHistoryRow)
    (cache : Option (UtxoMap × Nat)) (limit : Nat) : Except QueryErr (List Utxo) :=
  let r := match cache with
    | none => ChainQuery.utxo_delta confirming rows [] 0 limit
    | some (oldutxos, blockheight) =>
      ChainQuery.utxo_delta confirming rows oldutxos (blockheight + 1) limit
  match r with
  | .error e => .error e
  | .ok (newutxos, _, _) => .ok (newutxos.map utxoToItem)

/-! ## Mempool (`new_index/mempool.rs`) -/

/-- Script hashes: `compute_script_hash` is SHA-256 of the script bytes;
modelled as the script itself (an injective stand-in — only keying and
equality are used). -/
abbrev ScriptHash := Script

/-- `compute_script_hash` (`schema.rs:1110`). -/
def compute_script_hash (script : Script) : ScriptHash := script

/-- Generic association-list point get (`HashMap::get`). -/
def assocGet {α β : Type} [DecidableEq α] : List (α × β) → α → Option β
  | [], _ => none
  | (k, v) :: rest, key => if k = key then some v else assocGet rest key

/-- Replace the value stored under a key, in place. -/
def assocReplace {α β : Type} [DecidableEq α] : List (α × β) → α → β → List (α × β)
  | [], _, _ => []
  | (a, b) :: rest, k, v =>
    if a = k then (k, v) :: assocReplace rest k v else (a, b) :: assocReplace rest k v

/-- Generic association-list insert (`HashMap::insert`): replace in place if
present, append otherwise (keeps keys pairwise distinct). -/
def assocInsert {α β : Type} [DecidableEq α] (m : List (α × β)) (k : α) (v : β) :
    List (α × β) :=
  if (assocGet m k).isSome then assocReplace m k v
  else m ++ [(k, v)]

/-- Helper of `uniqueFirst`: drop elements already in `seen`. -/
def uniqueFirstAux {α : Type} [DecidableEq α] : List α → List α → List α
  | [], _ => []
  | x :: rest, seen =>
    if x ∈ seen then uniqueFirstAux rest seen
    else x :: uniqueFirstAux rest (x :: seen)

/-- `itertools::unique`: de-duplicate preserving the first occurrence. -/
def uniqueFirst {α : Type} [DecidableEq α] (l : List α) : List α :=
  uniqueFirstAux l []

/-- Modelled from the spec: `is_spendable` (from `util/mod.rs`, not among
the provided sources) — an output is spendable unless its script is provably
unspendable (an `OP_RETURN` script); the spec indexes "each spendable
output". -/
def is_spendable (txo : TxOut) : Bool := ! (txo.script_pubkey.headD 0 == OP_RETURN_BYTE)

/-- Modelled from the spec: `extract_tx_prevouts` (from `util/mod.rs`, not
among the provided sources) — the map input-index → previous output for the
inputs that have a prevout, resolved against `txos`. -/
def extract_tx_prevouts (tx : Transaction) (txos : List (OutPoint × TxOut)) :
    List (Nat × TxOut) :=
  tx.input.enum.filterMap (fun p =>
    if has_prevout p.2 then (assocGet txos p.2.previous_output).map (fun t => (p.1, t))
    else none)

/-- `TxFeeInfo::new` (`util/fees.rs:13`).  `fee_per_vbyte` is `fee / vsize`
(in ℚ; the source's `f32` NaN for `vsize = 0` does not arise for real
transactions). -/
def TxFeeInfo.new (tx : Transaction) (prevouts : List (Nat × TxOut)) (_network : Network) :
    TxFeeInfo :=
  let fee := get_tx_fee tx prevouts
  let vsize := tx.weight / 4
  ⟨fee, vsize, (fee : ℚ) / (vsize : ℚ)⟩

/-- `ColoredTxHistoryInfo` (`new_index/color.rs`). -/
inductive ColoredTxHistoryInfo where
  | Issuing (txid : Txid) (value : Nat)
  | Transferring (txid : Txid) (value : Nat)
  | Burning (txid : Txid) (value : Nat)
deriving DecidableEq

/-- `ColoredTxHistoryInfo::get_txid`. -/
def ColoredTxHistoryInfo.get_txid : ColoredTxHistoryInfo → Txid
  | .Issuing txid _ => txid
  | .Transferring txid _ => txid
  | .Burning txid _ => txid

/-- `get_amounts` (`color.rs:232`): per-color sum of the values of the
colored outputs of a list. -/
def get_amounts (outs : List TxOut) : List (ColorId × Nat) :=
  outs.foldl (fun amounts txo =>
    match split_color txo.script_pubkey with
    | some (color_id, _) =>
      assocInsert amounts color_id (((assocGet amounts color_id).getD 0) + txo.value)
    | none => amounts) []

/-- `create_history_info` (`color.rs:289`). -/
def create_history_info (txid : Txid) (prev_amount amount : Nat) :
    List ColoredTxHistoryInfo :=
  if prev_amount < amount then
    .Issuing txid (amount - prev_amount)
      :: (if 0 < prev_amount then [.Transferring txid prev_amount] else [])
  else if amount = prev_amount then [.Transferring txid amount]
  else
    .Burning txid (prev_amount - amount)
      :: (if 0 < amount then [.Transferring txid amount] else [])

/-- `colored_tx_history` (`color.rs:247`): issuing/transferring/burning
entries of a transaction, per color id (hash-map iteration order modelled by
first-insertion order). -/
def colored_tx_history (tx : Transaction) (txos : List (OutPoint × TxOut)) :
    List (ColorId × ColoredTxHistoryInfo) :=
  let previous := tx.input.filterMap (fun input => assocGet txos input.previous_output)
  let colored_prevouts := get_amounts previous
  let colored_outs := get_amounts tx.output
  let m1 : List (ColorId × (Nat × Nat)) :=
    colored_prevouts.foldl (fun m p => assocInsert m p.1 (p.2, 0)) []
  let m2 : List (ColorId × (Nat × Nat)) :=
    colored_outs.foldl (fun m p =>
      assocInsert m p.1 (((assocGet m p.1).map Prod.fst).getD 0, p.2)) m1
  m2.flatMap (fun e => (create_history_info tx.malfix_txid e.2.1 e.2.2).map (fun i => (e.1, i)))

/-- `TxOverview` (`mempool.rs:52`). -/
structure TxOverview where
  txid : Txid
  fee : Nat
  vsize : Nat
  time : Nat
  value : Nat
deriving DecidableEq

/-- `RECENT_TXS_SIZE` (`mempool.rs:29`). -/
def RECENT_TXS_SIZE : Nat := 10

/-- `BacklogStats` (`mempool.rs:591`). -/
structure BacklogStats where
  count : Nat
  vsize : Nat
  total_fee : Nat
  fee_histogram : List (ℚ × Nat)
deriving DecidableEq

/-- `BacklogStats::default`. -/
def BacklogStats.default : BacklogStats := ⟨0, 0, 0, [(0, 0)]⟩

/-- `BacklogStats::new` over the fee-info map's values. -/
def BacklogStats.new (feeinfo : List (Txid × TxFeeInfo)) : BacklogStats :=
  let vals := feeinfo.map Prod.snd
  { count := vals.length
    vsize := (vals.map TxFeeInfo.vsize).sum
    total_fee := (vals.map TxFeeInfo.fee).sum
    fee_histogram := make_fee_histogram vals }

/-- The in-memory `Mempool` state (`mempool.rs:32`; the chain handle,
config and metrics are passed separately or dropped). -/
structure Mempool where
  txstore : List (Txid × Transaction)
  feeinfo : List (Txid × TxFeeInfo)
  history : List (ScriptHash × List TxHistoryInfo)
  colors : List (ColorId × List ColoredTxHistoryInfo)
  edges : List (OutPoint × (Txid × Nat))
  recent : List TxOverview
  overviews : List (Txid × TxOverview)
  backlog_stats : BacklogStats
deriving DecidableEq

/-- The configuration fields `Mempool::add` reads. -/
structure MempoolConfig where
  network : Network
  index_unspendables : Bool
deriving DecidableEq

/-- `Mempool::has_spend` (`mempool.rs:128`). -/
def Mempool.has_spend (mp : Mempool) (outpoint : OutPoint) : Bool :=
  (assocGet mp.edges outpoint).isSome

/-- `Mempool::utxo` (`mempool.rs:180`): the unspent Funding entries of the
script's mempool history. -/
def Mempool.utxo (mp : Mempool) (scripthash : ScriptHash) : List Utxo :=
  match assocGet mp.history scripthash with
  | none => []
  | some entries =>
    (entries.filterMap (fun e =>
      match e with
      | .Funding txid vout color_id value _ =>
        some { txid := txid, vout := vout, color_id := color_id, value := value
               confirmed := none }
      | .Spending _ _ _ _ _ _ => none)).filter
      (fun u => ! mp.has_spend (OutPoint.fromUtxo u))

/-- `Mempool::history_txids` (`mempool.rs:164`). -/
def Mempool.history_txids (mp : Mempool) (scripthash : ScriptHash) (limit : Nat) :
    List Txid :=
  match assocGet mp.history scripthash with
  | none => []
  | some entries => (uniqueFirst (entries.map TxHistoryInfo.get_txid)).take limit

/-- `Mempool::has_unconfirmed_parents` (`mempool.rs:136`). -/
def Mempool.has_unconfirmed_parents (mp : Mempool) (txid : Txid) : Bool :=
  match assocGet mp.txstore txid with
  | none => false
  | some tx =>
    tx.input.any (fun txin => (assocGet mp.txstore txin.previous_output.txid).isSome)

/-- `Mempool::get_prevouts` (`mempool.rs:534`): the set (`BTreeSet`, modelled
as a de-duplicated list) of prevouts of the given mempool transactions'
inputs that have one. -/
def Mempool.get_prevouts (mp : Mempool) (txids : List Txid) : List OutPoint :=
  uniqueFirst (txids.flatMap (fun txid =>
    match assocGet mp.txstore txid with
    | none => []
    | some tx => (tx.input.filter has_prevout).map TxIn.previous_output))

/-- `Mempool::lookup_txos` (`mempool.rs:504`): resolve each outpoint against
the confirmed txstore (`chainTxos`) first, then the mempool txstore; error
if any outpoint is missing from both. -/
def Mempool.lookup_txos (mp : Mempool) (chainTxos : OutPoint → Option TxOut) :
    List OutPoint → Except Unit (List (OutPoint × TxOut))
  | [] => .ok []
  | o :: rest =>
    match (chainTxos o).orElse
        (fun _ => (assocGet mp.txstore o.txid).bind (fun tx => tx.output.get? o.vout)) with
    | some txo => (Mempool.lookup_txos mp chainTxos rest).map (fun l => (o, txo) :: l)
    | none => .error ()

/-- The spending half of `Mempool::add`'s history entries
(`mempool.rs:390-438`): one Spending entry per resolved prevout, duplicated
under the colored script hash and the stripped script hash when the prevout
is colored. -/
def spendingEntries (txid : Txid) (tx : Transaction) (prevouts : List (Nat × TxOut)) :
    List (ScriptHash × TxHistoryInfo) :=
  prevouts.flatMap (fun p =>
    match tx.input.get? p.1 with
    | none => []
    | some txi =>
      match split_color p.2.script_pubkey with
      | some (color_id, script) =>
        [(compute_script_hash p.2.script_pubkey,
          .Spending txid p.1 txi.previous_output.txid txi.previous_output.vout
            color_id p.2.value),
         (compute_script_hash script,
          .Spending txid p.1 txi.previous_output.txid txi.previous_output.vout
            color_id p.2.value)]
      | none =>
        [(compute_script_hash p.2.script_pubkey,
          .Spending txid p.1 txi.previous_output.txid txi.previous_output.vout
            defaultColorId p.2.value)])

/-- The funding half of `Mempool::add`'s history entries
(`mempool.rs:442-493`): one Funding entry per spendable output, duplicated
under the colored script hash and the stripped script hash when the output
is colored. -/
def fundingEntries (txid : Txid) (tx : Transaction) (index_unspendables : Bool) :
    List (ScriptHash × TxHistoryInfo) :=
  (tx.output.enum.filter (fun p => is_spendable p.2 || index_unspendables)).flatMap
    (fun p =>
      match split_color p.2.script_pubkey with
      | some (color_id, script) =>
        [(compute_script_hash p.2.script_pubkey,
          .Funding txid p.1 color_id p.2.value none),
         (compute_script_hash script,
          .Funding txid p.1 color_id p.2.value none)]
      | none =>
        [(compute_script_hash p.2.script_pubkey,
          .Funding txid p.1 defaultColorId p.2.value none)])

/-- Append an entry to a script's history list. -/
def historyPush (h : List (ScriptHash × List TxHistoryInfo)) (sh : ScriptHash)
    (e : TxHistoryInfo) : List (ScriptHash × List TxHistoryInfo) :=
  assocInsert h sh (((assocGet h sh).getD []) ++ [e])

/-- Append an entry to a color's history list. -/
def colorsPush (cs : List (ColorId × List ColoredTxHistoryInfo)) (c : ColorId)
    (e : ColoredTxHistoryInfo) : List (ColorId × List ColoredTxHistoryInfo) :=
  assocInsert cs c (((assocGet cs c).getD []) ++ [e])

/-- Phase 2 of `Mempool::add` for one transaction (`mempool.rs:364-500`):
fee info, overview, recent ring, history entries (funding then spending),
spend edges, and color rows. -/
def Mempool.addPhase2Tx (cfg : MempoolConfig) (txos : List (OutPoint × TxOut))
    (mp : Mempool) (time : Nat) (tx : Transaction) : Mempool :=
  let txid := tx.malfix_txid
  let prevouts := extract_tx_prevouts tx txos
  let feeinfo := TxFeeInfo.new tx prevouts cfg.network
  let value := (prevouts.map (fun p => p.2.value)).sum
  let overview : TxOverview :=
    ⟨txid, feeinfo.fee, feeinfo.vsize, time, value⟩
  let entries := fundingEntries txid tx cfg.index_unspendables
    ++ spendingEntries txid tx prevouts
  { mp with
    recent := (overview :: mp.recent).take RECENT_TXS_SIZE
    overviews := assocInsert mp.overviews txid overview
    feeinfo := assocInsert mp.feeinfo txid feeinfo
    history := entries.foldl (fun h p => historyPush h p.1 p.2) mp.history
    edges := tx.input.enum.foldl
      (fun ed p => assocInsert ed p.2.previous_output (txid, p.1)) mp.edges
    colors := (colored_tx_history tx txos).foldl
      (fun cs p => colorsPush cs p.1 p.2) mp.colors }

/-- `Mempool::add` (`mempool.rs:340`): phase 1 inserts into the txstore;
phase 2 resolves prevouts (aborting, with the txstore already updated, if
some cannot be found) and indexes each transaction. -/
def Mempool.add (cfg : MempoolConfig) (chainTxos : OutPoint → Option TxOut)
    (mp : Mempool) (txs : List (Nat × Transaction)) : Mempool :=
  let txids := txs.map (fun tt => tt.2.malfix_txid)
  let mp1 := txs.foldl
    (fun m tt => { m with txstore := assocInsert m.txstore tt.2.malfix_txid tt.2 }) mp
  match mp1.lookup_txos chainTxos (mp1.get_prevouts txids) with
  | .error _ => mp1
  | .ok txos => txs.foldl (fun m tt => Mempool.addPhase2Tx cfg txos m tt.1 tt.2) mp1

/-- `Mempool::remove` (`mempool.rs:552`). -/
def Mempool.remove (mp : Mempool) (to_remove : List Txid) : Mempool :=
  { mp with
    txstore := mp.txstore.filter (fun p => decide (p.1 ∉ to_remove))
    overviews := mp.overviews.filter (fun p => decide (p.1 ∉ to_remove))
    feeinfo := mp.feeinfo.filter (fun p => decide (p.1 ∉ to_remove))
    history := (mp.history.map (fun p =>
        (p.1, p.2.filter (fun e => decide (e.get_txid ∉ to_remove))))).filter
      (fun p => ! p.2.isEmpty)
    edges := mp.edges.filter (fun p => decide (p.2.1 ∉ to_remove))
    colors := (mp.colors.map (fun p =>
        (p.1, p.2.filter (fun e => decide (e.get_txid ∉ to_remove))))).filter
      (fun p => ! p.2.isEmpty) }

/-- `Mempool::update` (`mempool.rs:281`).  The daemon interactions are the
parameters: `summary` is `daemon.getmempool()` (txid → entry time) and
`fetched` is `daemon.gettransactions(to_add)`; `backlogExpired` tells
whether the backlog-stats TTL elapsed.  A summary error propagates; a fetch
error logs a warning and returns `Ok` with the mempool untouched. -/
def Mempool.update (cfg : MempoolConfig) (chainTxos : OutPoint → Option TxOut)
    (mp : Mempool) (summary : Except Unit (List (Txid × Nat)))
    (fetched : Except Unit (List Transaction)) (backlogExpired : Bool) :
    Except Unit Mempool :=
  match summary with
  | .error e => .error e
  | .ok txs =>
    let new_txids := txs.map Prod.fst
    let old_txids := mp.txstore.map Prod.fst
    let to_remove := old_txids.filter (fun t => decide (t ∉ new_txids))
    match fetched with
    | .error _ => .ok mp
    | .ok to_add_tx =>
      let to_add := to_add_tx.map (fun tx => ((assocGet txs tx.malfix_txid).getD 0, tx))
      let mp1 := Mempool.add cfg chainTxos mp to_add
      let mp2 := mp1.remove to_remove
      if backlogExpired then .ok { mp2 with backlog_stats := BacklogStats.new mp2.feeinfo }
      else .ok mp2

/-- `Query::utxo` (`new_index/query.rs:78`): confirmed UTXOs minus those
with a mempool spend edge, then the mempool's own unspent funding outputs. -/
def Query.utxo (confirming : Txid → Option BlockId) (rows : List TxHistoryRow)
    (cache : Option (UtxoMap × Nat)) (utxos_limit : Nat) (mp : Mempool)
    (scripthash : ScriptHash) : Except QueryErr (List Utxo) :=
  match ChainQuery.utxo confirming rows cache utxos_limit with
  | .error e => .error e
  | .ok utxos =>
    .ok ((utxos.filter (fun u => ! mp.has_spend (OutPoint.fromUtxo u)))
      ++ mp.utxo scripthash)

/-! ## Open assets (`open_assets/mod.rs`, `compute_assets`) -/

/-- The state of `compute_assets`' transfer walk: the remaining
`input_enum` iterator, the `current_input`, and `input_units_left`. -/
structure TransferState where
  stream : List (TxOut × Option OpenAsset)
  current : Option (TxOut × Option OpenAsset)
  input_units_left : Nat
deriving DecidableEq

/-- One run of the `while output_units_left > 0` loop of `compute_assets`
(`open_assets/mod.rs:190-215`), fuelled: `none` means the fuel ran out (the
source loop does not terminate), `.error` models the `panic!("invalid
asset")`. -/
def consumeLoop : Nat → TransferState → Nat → Option AssetId →
    Option (Except Unit (TransferState × Option AssetId))
  | 0, _, _, _ => none
  | fuel + 1, st, output_units_left, asset_id =>
    if output_units_left = 0 then some (.ok (st, asset_id))
    else
      let st1 :=
        if st.input_units_left = 0 then
          match st.stream with
          | [] => { stream := [], current := none
                    input_units_left := st.input_units_left }
          | x :: rest =>
            { stream := rest, current := some x
              input_units_left :=
                match x.2 with
                | some asset => asset.asset_quantity
                | none => st.input_units_left }
        else st
      match st1.current with
      | some (_, some asset) =>
        let progress := min st1.input_units_left output_units_left
        let st2 := { st1 with input_units_left := st1.input_units_left - progress }
        match asset_id with
        | none => consumeLoop fuel st2 (output_units_left - progress) (some asset.asset_id)
        | some aid =>
          if aid = asset.asset_id then
            consumeLoop fuel st2 (output_units_left - progress) (some aid)
          else some (.error ())
      | _ => consumeLoop fuel st1 output_units_left asset_id

/-- The `for i in (marker_output_index + 1)..(quantities.len() + 1)` loop of
`compute_assets` (`open_assets/mod.rs:183-230`), over the remaining transfer
quantities. -/
def transferOutputs (fuel : Nat) (metadata : Metadata) :
    List Nat → TransferState → Option (Except Unit (List (Option OpenAsset)))
  | [], _ => some (.ok [])
  | quantity :: rest, st =>
    match consumeLoop fuel st quantity none with
    | none => none
    | some (.error e) => some (.error e)
    | some (.ok (st', asset_id)) =>
      let asset : Option OpenAsset :=
        match asset_id with
        | some aid => if 0 < quantity then some ⟨aid, quantity, metadata⟩ else none
        | none => none
      match transferOutputs fuel metadata rest st' with
      | none => none
      | some (.error e) => some (.error e)
      | some (.ok assets) => some (.ok (asset :: assets))

/-- `compute_assets` (`open_assets/mod.rs:145`), fuelled.  `.error` models a
panic (a failed `assert!` or `panic!("invalid asset")`); `none` means the
transfer walk does not terminate within `fuel` iterations.  (The source's
`txn.output.len() - 1` is `usize` arithmetic; output lists are non-empty
whenever a marker output exists, so `Nat` subtraction is faithful.) -/
def compute_assets (fuel : Nat) (prev_outs : List (TxOut × Option OpenAsset))
    (marker_output_index : Nat) (txn : Transaction) (quantities : List Nat)
    (network_type : Network) (metadata : Metadata) :
    Option (Except Unit (List (Option OpenAsset))) :=
  if ¬ (quantities.length ≤ txn.output.length - 1) then some (.error ())
  else
    match prev_outs with
    | [] => some (.error ())
    | first :: _ =>
      let issuance_asset_id := AssetId.new first.1.script_pubkey network_type
      let issuance := (List.range marker_output_index).map (fun i =>
        if i < quantities.length ∧ 0 < quantities.getD i 0 then
          some (⟨issuance_asset_id, quantities.getD i 0, metadata⟩ : OpenAsset)
        else none)
      match transferOutputs fuel metadata (quantities.drop marker_output_index)
          ⟨prev_outs, none, 0⟩ with
      | none => none
      | some (.error e) => some (.error e)
      | some (.ok transfers) =>
        some (.ok (issuance ++ [none] ++ transfers
          ++ List.replicate (txn.output.length - (quantities.length + 1)) none))

/-- The previous outputs as the spec's "stream of input asset units": each
colored previous output contributes its quantity of units of its asset id. -/
def assetUnits (prev_outs : List (TxOut × Option OpenAsset)) : List AssetId :=
  prev_outs.flatMap (fun p =>
    match p.2 with
    | some a => List.replicate a.asset_quantity a.asset_id
    | none => [])

/-- The units represented by a transfer state: what remains of the current
input, then the rest of the stream. -/
def stateUnits (st : TransferState) : List AssetId :=
  (match st.current with
   | some (_, some a) => List.replicate st.input_units_left a.asset_id
   | _ => []) ++ assetUnits st.stream

/-- Spec-side unit consumption, one unit at a time, following the spec's
words: consume `q` units from the stream; the asset id is fixed at the point
of consumption and a unit of a different asset id makes the transfer invalid
(`.error`); `none` when fewer than `q` units remain (the source loop then
never terminates). -/
def consumeUnits : Nat → Option AssetId → List AssetId →
    Option (Except Unit (Option AssetId × List AssetId))
  | 0, aid, units => some (.ok (aid, units))
  | _ + 1, _, [] => none
  | q + 1, aid, u :: rest =>
    match aid with
    | none => consumeUnits q (some u) rest
    | some a => if a = u then consumeUnits q (some u) rest else some (.error ())

/-- Spec-side transfer assignment (written from the spec's algorithm):
each transfer output consumes its quantity of units and receives the
consumed asset id (none for a zero quantity). -/
def specTransfers (metadata : Metadata) :
    List Nat → List AssetId → Option (Except Unit (List (Option OpenAsset)))
  | [], _ => some (.ok [])
  | q :: rest, units =>
    match consumeUnits q none units with
    | none => none
    | some (.error e) => some (.error e)
    | some (.ok (aid, units')) =>
      let asset : Option OpenAsset :=
        match aid with
        | some a => if 0 < q then some ⟨a, q, metadata⟩ else none
        | none => none
      match specTransfers metadata rest units' with
      | none => none
      | some (.error e) => some (.error e)
      | some (.ok l) => some (.ok (asset :: l))

/-- Every colored entry of the stream has positive quantity (true of every
asset `compute_assets` itself ever produces, which guards `asset_quantity > 0`). -/
def StreamPos (stream : List (TxOut × Option OpenAsset)) : Prop :=
  ∀ p ∈ stream, ∀ a : OpenAsset, p.2 = some a → 0 < a.asset_quantity

/-- The walk's invariant: a positive `input_units_left` implies the current
input is colored. -/
def CurOk (st : TransferState) : Prop :=
  st.input_units_left ≠ 0 → ∃ x a, st.current = some (x, some a)

/-- Executable check of `StreamPos`. -/
def streamPosB (stream : List (TxOut × Option OpenAsset)) : Bool :=
  stream.all (fun p =>
    match p.2 with
    | some a => decide (0 < a.asset_quantity)
    | none => true)

/-- Total colored quantity carried by a stream. -/
def streamQty (stream : List (TxOut × Option OpenAsset)) : Nat :=
  (stream.map (fun p =>
    match p.2 with
    | some a => a.asset_quantity
    | none => 0)).sum

/-- Remaining units of a transfer state, by count. -/
def unitCount (st : TransferState) : Nat := st.input_units_left + streamQty st.stream

/-- Protocol-example scripts: the first previous output's script (asset 1). -/
def exScript1 : Script := [0x76, 0xa9, 0x14] ++ List.replicate 20 0x01 ++ [0x88, 0xac]

/-- Protocol-example script of asset 2. -/
def exScript2 : Script := [0x76, 0xa9, 0x14] ++ List.replicate 20 0x02 ++ [0x88, 0xac]

/-- Protocol-example script of asset 3. -/
def exScript3 : Script := [0x76, 0xa9, 0x14] ++ List.replicate 20 0x03 ++ [0x88, 0xac]

/-- Protocol-example metadata. -/
def exMeta : Metadata := [0x75]

/-- `asset_1(q)` of the repository's open-assets tests. -/
def exAsset1 (q : Nat) : Option OpenAsset := some ⟨AssetId.new exScript1 .prod, q, exMeta⟩

/-- `asset_2(q)` of the repository's open-assets tests. -/
def exAsset2 (q : Nat) : Option OpenAsset := some ⟨AssetId.new exScript2 .prod, q, exMeta⟩

/-- `asset_3(q)` of the repository's open-assets tests. -/
def exAsset3 (q : Nat) : Option OpenAsset := some ⟨AssetId.new exScript3 .prod, q, exMeta⟩

/-- The previous outputs of the protocol-spec example
(`test_compute_assets_both`): asset 2 on the first, second, fourth and fifth
inputs, an uncolored third input, asset 3 on the sixth. -/
def exPrevOuts : List (TxOut × Option OpenAsset) :=
  [(⟨1000, exScript1⟩, exAsset2 3), (⟨0, []⟩, exAsset2 2), (⟨0, []⟩, none),
   (⟨0, []⟩, exAsset2 5), (⟨0, []⟩, exAsset2 3), (⟨0, []⟩, exAsset3 9)]

/-- The protocol-spec example transaction: 7 outputs, marker at index 2. -/
def exTx : Transaction :=
  { malfix_txid := 100, weight := 400
    input := List.replicate 6 ⟨⟨3, 0⟩⟩
    output := List.replicate 7 ⟨0, []⟩ }

/-- The C10 divergence input: one previous output carrying a single asset
unit, while the single transfer output demands two. -/
def c10PrevOuts : List (TxOut × Option OpenAsset) :=
  [(⟨0, []⟩, some ⟨AssetId.new exScript1 .prod, 1, exMeta⟩)]

/-- The C10 divergence transaction: marker at 0, one transfer output. -/
def c10Tx : Transaction :=
  { malfix_txid := 101, weight := 400, input := [⟨⟨3, 0⟩⟩]
    output := List.replicate 2 ⟨0, []⟩ }

/-! ## Confirmed-block indexing (`new_index/schema.rs`, `index_transaction`) -/

/-- A row emitted by `index_transaction`: an `H` history row (for one
script hash), an `S` spend-edge row, or an `a` address-search row. -/
inductive IndexRow where
  | history (scripthash : ScriptHash) (height : Nat) (info : TxHistoryInfo)
  | edge (funding_txid : Txid) (funding_vout : Nat) (spending_txid : Txid)
      (spending_vin : Nat)
  | addr (address : List Byte)
deriving DecidableEq

/-- The `IndexerConfig` fields `index_transaction` reads. -/
structure IndexerConfig where
  address_search : Bool
  index_unspendables : Bool
deriving DecidableEq

/-- The output loop of `index_transaction` (`schema.rs:1010-1058`), indexed
from `txo_index`; `s2a` abstracts the library's `script_to_address`
rendering used by `addr_search_row`. -/
def indexOutputRows (s2a : Script → Option (List Byte)) (iconfig : IndexerConfig)
    (txid : Txid) (height : Nat) : Nat → List TxOut → List IndexRow
  | _, [] => []
  | txo_index, txo :: rest =>
    (if is_spendable txo || iconfig.index_unspendables then
      (match split_color txo.script_pubkey with
       | some (color_id, script) =>
         [.history (compute_script_hash txo.script_pubkey) height
            (.Funding txid txo_index color_id txo.value none),
          .history (compute_script_hash script) height
            (.Funding txid txo_index color_id txo.value none)]
       | none =>
         [.history (compute_script_hash txo.script_pubkey) height
            (.Funding txid txo_index defaultColorId txo.value none)])
      ++ (if iconfig.address_search then
            match s2a txo.script_pubkey with
            | some address => [.addr address]
            | none => []
          else [])
    else [])
    ++ indexOutputRows s2a iconfig txid height (txo_index + 1) rest

/-- The input loop of `index_transaction` (`schema.rs:1060-1093`), indexed
from `txi_index`: one Spending history row under the hash of the previous
output's (possibly colored) script, and one spend-edge row.  (The source
panics on a missing previous txo; that case emits nothing here.) -/
def indexInputRows (txid : Txid) (height : Nat)
    (previous_txos_map : List (OutPoint × TxOut)) : Nat → List TxIn → List IndexRow
  | _, [] => []
  | txi_index, txi :: rest =>
    (if has_prevout txi then
      match assocGet previous_txos_map txi.previous_output with
      | none => []
      | some prev_txo =>
        [.history (compute_script_hash prev_txo.script_pubkey) height
           (.Spending txid txi_index txi.previous_output.txid txi.previous_output.vout
             (((split_color prev_txo.script_pubkey).map Prod.fst).getD defaultColorId)
             prev_txo.value),
         .edge txi.previous_output.txid txi.previous_output.vout txid txi_index]
    else [])
    ++ indexInputRows txid height previous_txos_map (txi_index + 1) rest

/-- `index_transaction` (`schema.rs:997`). -/
def index_transaction (s2a : Script → Option (List Byte)) (iconfig : IndexerConfig)
    (tx : Transaction) (confirmed_height : Nat)
    (previous_txos_map : List (OutPoint × TxOut)) : List IndexRow :=
  indexOutputRows s2a iconfig tx.malfix_txid confirmed_height 0 tx.output
    ++ indexInputRows tx.malfix_txid confirmed_height previous_txos_map 0 tx.input

/-- Is this row a Funding history row for output index `i`? -/
def isFundingRowFor (i : Nat) : IndexRow → Bool
  | .history _ _ (.Funding _ vout _ _ _) => vout == i
  | _ => false

/-- Is this row a Spending history row for input index `j`? -/
def isSpendingRowFor (j : Nat) : IndexRow → Bool
  | .history _ _ (.Spending _ vin _ _ _ _) => vin == j
  | _ => false

/-- Is this row any Spending history row? -/
def isSpendingRow : IndexRow → Bool
  | .history _ _ (.Spending _ _ _ _ _ _) => true
  | _ => false

/-- The previous-txo map of the C3 counterexample: outpoint (1, 0) is a
colored output of value 5. -/
def c3PrevTxos : List (OutPoint × TxOut) := [(⟨1, 0⟩, ⟨5, coloredScript⟩)]

/-- The C3 counterexample transaction: it spends the colored outpoint
(1, 0). -/
def c3Tx2 : Transaction :=
  { malfix_txid := 2, weight := 400, input := [⟨⟨1, 0⟩⟩], output := [⟨5, p2pkhScript⟩] }

/-- A transaction with one colored output, for the C3 witness. -/
def c3Tx1 : Transaction :=
  { malfix_txid := 1, weight := 400, input := [⟨⟨9, 0⟩⟩], output := [⟨5, coloredScript⟩] }

/-! ## Electrum status hash (`electrum/server.rs`) -/

/-- Modelled from the spec: `get_electrum_height` (from `electrum/mod.rs`,
not among the provided sources) — "a confirmed tx uses its block height as a
positive integer; an unconfirmed tx without unconfirmed parents uses 0; with
unconfirmed parents uses -1". -/
def get_electrum_height (blockid : Option BlockId) (has_unconfirmed_parents : Bool) : Int :=
  match blockid with
  | some b => (b.height : Int)
  | none => if has_unconfirmed_parents then -1 else 0

/-- One `format!("{}:{}:", txid, height)` part fed to the hasher. -/
def statusHashPart (txid : Txid) (height : Int) : String :=
  toString txid ++ ":" ++ toString height ++ ":"

/-- `get_status_hash` (`electrum/server.rs:88`).  The SHA-256 hasher is
modelled as the string buffer it has been fed (`sha2.input` appends each
part), digested by the abstract `digest` function at `result`; `None` for an
empty history. -/
def get_status_hash (digest : String → List Byte) (mp : Mempool)
    (txs : List (Txid × Option BlockId)) : Option (List Byte) :=
  if txs.isEmpty then none
  else
    some (digest (txs.foldl (fun buf tb =>
      buf ++ statusHashPart tb.1
        (get_electrum_height tb.2 (tb.2.isNone && mp.has_unconfirmed_parents tb.1))) ""))

/-- `ChainQuery::_history_txids` (`schema.rs:484`): scan txids,
de-duplicate preserving first occurrence, keep the confirmed ones with
their block, cap at `limit`. -/
def ChainQuery.history_txids (confirming : Txid → Option BlockId)
    (rows : List TxHistoryRow) (limit : Nat) : List (Txid × BlockId) :=
  ((uniqueFirst (rows.map (fun r => r.txinfo.get_txid))).filterMap
    (fun txid => (confirming txid).map (fun b => (txid, b)))).take limit

/-- `Query::history_txids` (`query.rs:86`): confirmed txids first, then
mempool txids up to the remaining limit. -/
def Query.history_txids (confirming : Txid → Option BlockId) (rows : List TxHistoryRow)
    (mp : Mempool) (scripthash : ScriptHash) (limit : Nat) :
    List (Txid × Option BlockId) :=
  let confirmed_txids := ChainQuery.history_txids confirming rows limit
  confirmed_txids.map (fun p => (p.1, some p.2))
    ++ (mp.history_txids scripthash (limit - confirmed_txids.length)).map (fun t => (t, none))

/-- `get_history` (`electrum/server.rs:782`): ask for one entry more than
the limit and fail with `TooPopular` if it exists. -/
def get_history (confirming : Txid → Option BlockId) (rows : List TxHistoryRow)
    (mp : Mempool) (scripthash : ScriptHash) (txs_limit : Nat) :
    Except QueryErr (List (Txid × Option BlockId)) :=
  let history_txids := Query.history_txids confirming rows mp scripthash (txs_limit + 1)
  if history_txids.length ≤ txs_limit then .ok history_txids else .error .TooPopular

/-- `Connection::blockchain_scripthash_subscribe` (`electrum/server.rs:419`)
(the subscription bookkeeping is connection state; the returned value is
modelled). -/
def blockchain_scripthash_subscribe (digest : String → List Byte)
    (confirming : Txid → Option BlockId) (rows : List TxHistoryRow) (mp : Mempool)
    (scripthash : ScriptHash) (txs_limit : Nat) :
    Except QueryErr (Option (List Byte)) :=
  match get_history confirming rows mp scripthash txs_limit with
  | .error e => .error e
  | .ok history_txids => .ok (get_status_hash digest mp history_txids)

/-- The concatenation of `"{txid}:{height}:"` over a history, as the claim
words it. -/
def statusConcat (mp : Mempool) (txs : List (Txid × Option BlockId)) : String :=
  String.join (txs.map (fun tb =>
    statusHashPart tb.1
      (get_electrum_height tb.2 (tb.2.isNone && mp.has_unconfirmed_parents tb.1))))

/-! ## History row keys (`new_index/schema.rs`, `TxHistoryRow`) -/

/-- Big-endian base-256 digits of `n`, `w` bytes wide. -/
def beDigits : Nat → Nat → List Byte
  | 0, _ => []
  | w + 1, n => (n / 256 ^ w) % 256 :: beDigits w (n % 256 ^ w)

/-- The four big-endian bytes of a `u32` (bincode `.with_big_endian()`). -/
def be32 (n : Nat) : List Byte := beDigits 4 n

/-- The serialized key of a `TxHistoryRow` (`TxHistoryKey` bincoded with
`.with_big_endian()`, `schema.rs:1407`): code byte, the 32-byte hash raw,
the confirmed height as a big-endian `u32`, then the serialized
`TxHistoryInfo` (abstracted here as arbitrary trailing bytes `info`, which
is sound because everything before it has fixed width). -/
def historyRowKey (code : Byte) (hash : List Byte) (height : Nat) (info : List Byte) :
    List Byte :=
  code :: (hash ++ (be32 height ++ info))

/-- `TxHistoryRow::prefix_height` (`schema.rs:1399`): the key a forward scan
starts from for (code, hash, height). -/
def historyScanStart (code : Byte) (hash : List Byte) (height : Nat) : List Byte :=
  code :: (hash ++ be32 height)

/-- Strict lexicographic order on raw byte keys (the ordered key-value
store's comparator). -/
def bytesLt (a b : List Byte) : Prop := List.Lex (· < ·) a b

/-- Reflexive closure of `bytesLt`: the keys a forward scan starting at a
given key can yield. -/
def bytesLe (a b : List Byte) : Prop := a = b ∨ bytesLt a b

/-- A concrete best-chain membership function for witnesses: only txid 1 is
confirmed, at height 10 in block 100. -/
def witConfirming : Txid → Option BlockId := fun t => if t = 1 then some ⟨10, 100⟩ else none

/-- A concrete one-row history for witnesses. -/
def witRows : List TxHistoryRow := [⟨10, .Funding 1 0 defaultColorId 5 none⟩]

/-- A concrete mempool configuration for witnesses. -/
def witCfg : MempoolConfig := ⟨.prod, false⟩

/-- The empty mempool state. -/
def witEmptyMempool : Mempool := ⟨[], [], [], [], [], [], [], BacklogStats.default⟩

/-- The mempool transaction T2 of claim C7's scenario: it spends the
confirmed outpoint (1, 0) and pays to a different script. -/
def scenarioTx2 : Transaction :=
  { malfix_txid := 2, weight := 400, input := [⟨⟨1, 0⟩⟩], output := [⟨5, [0x51]⟩] }

/-- The confirmed-output resolver of the scenario: (1, 0) is T1's output of
value 5 on the p2pkh script. -/
def scChainTxos : OutPoint → Option TxOut :=
  fun o => if o = ⟨1, 0⟩ then some ⟨5, p2pkhScript⟩ else none

/-- The scenario mempool: T2 added to an empty mempool. -/
def scenarioMempool : Mempool :=
  Mempool.add witCfg scChainTxos witEmptyMempool [(1000, scenarioTx2)]

/-!
# Theorems
-/

/-- Claim C9 (counterexample): on the repository's own `test_get_tx_fee`
data — 10000 uncolored + 20000 colored in, 9500 uncolored + 19000 colored
out — `get_tx_fee` returns 500 (colored input value excluded), while the
claim's formula (total input value minus non-colored output value) gives
20500. -/
theorem get_tx_fee_colored_input_cex :
    get_tx_fee feeTx feePrevouts = 500 ∧
    get_tx_fee_claimed feeTx feePrevouts = 20500 ∧
    get_tx_fee feeTx feePrevouts ≠ get_tx_fee_claimed feeTx feePrevouts := by
  refine ⟨by decide, by decide, by decide⟩

/-- Claim C9 (amended): `get_tx_fee` returns 0 for a coinbase transaction,
and for every other transaction the fee equals the **non-colored** input
value minus the non-colored output value. -/
theorem get_tx_fee_amended_ok (tx : Transaction) (prevouts : List (Nat × TxOut)) :
    (tx.is_coin_base = true → get_tx_fee tx prevouts = 0) ∧
    (tx.is_coin_base = false →
      get_tx_fee tx prevouts
        = nonColoredValueSum (prevouts.map Prod.snd) - nonColoredValueSum tx.output) := by
  constructor <;> intro h <;> simp [get_tx_fee, nonColoredValueSum, h]

/-- Witness for `get_tx_fee_amended_ok` at the concrete test transaction. -/
theorem get_tx_fee_amended_ok_witness :
    feeTx.is_coin_base = false ∧
    get_tx_fee feeTx feePrevouts
      = nonColoredValueSum (feePrevouts.map Prod.snd) - nonColoredValueSum feeTx.output :=
  ⟨by decide, (get_tx_fee_amended_ok feeTx feePrevouts).2 (by decide)⟩

lemma vsizeSum_append_single (g : List TxFeeInfo) (e : TxFeeInfo) :
    vsizeSum (g ++ [e]) = vsizeSum g + e.vsize := by
  simp [vsizeSum]

lemma rateOfLast_append_single (g : List TxFeeInfo) (e : TxFeeInfo) :
    rateOfLast (g ++ [e]) = e.fee_per_vbyte := by
  simp [rateOfLast]

lemma rateOfLast_single (e : TxFeeInfo) : rateOfLast [e] = e.fee_per_vbyte := by
  simp [rateOfLast]

lemma vsizeSum_pos (g : List TxFeeInfo) (hne : g ≠ [])
    (hpos : ∀ e ∈ g, 0 < e.vsize) : 0 < vsizeSum g := by
  match g with
  | [] => exact absurd rfl hne
  | x :: t =>
    have hx : 0 < x.vsize := hpos x (by simp)
    calc 0 < x.vsize := hx
    _ ≤ x.vsize + (t.map TxFeeInfo.vsize).sum := Nat.le_add_right _ _
    _ = vsizeSum (x :: t) := by simp [vsizeSum]

lemma rateOfLast_le (g : List TxFeeInfo) (hs : g.Pairwise DescRate) :
    ∀ e ∈ g, rateOfLast g ≤ e.fee_per_vbyte := by
  induction g with
  | nil => intro e he; simp at he
  | cons a t ih =>
    intro e he
    match t with
    | [] =>
      simp at he
      subst he
      simp [rateOfLast]
    | b :: t' =>
      have hlast : rateOfLast (a :: b :: t') = rateOfLast (b :: t') := by
        simp [rateOfLast]
      rw [hlast]
      rcases List.mem_cons.mp he with rfl | hmem
      · -- the last element of b :: t' is a member, and DescRate e it
        have hpair := List.pairwise_cons.mp hs
        have hmem' : ∃ x, (b :: t').getLast? = some x ∧ x ∈ b :: t' := by
          refine ⟨(b :: t').getLast (by simp), List.getLast?_eq_getLast _ (by simp), ?_⟩
          exact List.getLast_mem _
        obtain ⟨x, hx, hxmem⟩ := hmem'
        have : rateOfLast (b :: t') = x.fee_per_vbyte := by
          simp [rateOfLast, hx]
        rw [this]
        exact hpair.1 x hxmem
      · exact ih (List.pairwise_cons.mp hs).2 e hmem

lemma histogramLoop_groups :
    ∀ (l bin : List TxFeeInfo), bin ≠ [] →
      (∀ e ∈ bin ++ l, 0 < e.vsize) →
      ∃ gs : List (List TxFeeInfo),
        gs.flatten = bin ++ l ∧ gs ≠ [] ∧ (∀ g ∈ gs, g ≠ []) ∧
        histogramLoop l (vsizeSum bin) (rateOfLast bin)
          = gs.map (fun g => (rateOfLast g, vsizeSum g)) ∧
        (∀ g ∈ gs.dropLast, VSIZE_BIN_WIDTH ≤ vsizeSum g) := by
  intro l
  induction l with
  | nil =>
    intro bin hne hpos
    refine ⟨[bin], by simp, by simp, by simp [hne], ?_, by simp⟩
    have : 0 < vsizeSum bin := vsizeSum_pos bin hne (fun e he => hpos e (by simpa using he))
    simp [histogramLoop, this]
  | cons e rest ih =>
    intro bin hne hpos
    show ∃ gs, _
    by_cases hcond : VSIZE_BIN_WIDTH < vsizeSum bin ∧ rateOfLast bin ≠ e.fee_per_vbyte
    · -- close the bin, start a new one with e
      obtain ⟨gs', hflat, hgsne, hallne, hloop, hwidth⟩ :=
        ih [e] (by simp) (by intro x hx; exact hpos x (by simp at hx ⊢; tauto))
      refine ⟨bin :: gs', ?_, by simp, ?_, ?_, ?_⟩
      · simp at hflat ⊢
        simpa using hflat
      · intro g hg
        rcases List.mem_cons.mp hg with rfl | hmem
        · exact hne
        · exact hallne g hmem
      · have hstep : histogramLoop (e :: rest) (vsizeSum bin) (rateOfLast bin)
            = (rateOfLast bin, vsizeSum bin)
              :: histogramLoop rest e.vsize e.fee_per_vbyte := by
          simp [histogramLoop, hcond]
        rw [hstep]
        have h1 : vsizeSum [e] = e.vsize := by simp [vsizeSum]
        have h2 : rateOfLast [e] = e.fee_per_vbyte := rateOfLast_single e
        rw [h1, h2] at hloop
        simp [hloop]
      · intro g hg
        match gs', hgsne with
        | g' :: gs'', _ =>
          simp only [List.dropLast_cons₂] at hg
          rcases List.mem_cons.mp hg with rfl | hmem
          · exact Nat.le_of_lt hcond.1
          · exact hwidth g (by simpa using hmem)
    · -- extend the current bin with e
      obtain ⟨gs, hflat, hgsne, hallne, hloop, hwidth⟩ :=
        ih (bin ++ [e]) (by simp)
          (by intro x hx; apply hpos x; simp at hx ⊢; tauto)
      refine ⟨gs, by simpa using hflat, hgsne, hallne, ?_, hwidth⟩
      have hstep : histogramLoop (e :: rest) (vsizeSum bin) (rateOfLast bin)
          = histogramLoop rest (vsizeSum bin + e.vsize) e.fee_per_vbyte := by
        simp [histogramLoop, hcond]
      rw [hstep]
      rw [vsizeSum_append_single, rateOfLast_append_single] at hloop
      exact hloop

/-- Claim C8: `make_fee_histogram` processes the fee infos in descending
fee-rate order (a permutation of the input, pairwise descending), and its
output is the image of a partition of that descending sequence into
consecutive non-empty groups whose virtual size is at least
`VSIZE_BIN_WIDTH` except possibly for the last group, each group being
emitted as (lowest fee rate in the group, total virtual size).  (Positivity
of the virtual sizes rules out a degenerate empty final bin.) -/
theorem make_fee_histogram_bins (entries : List TxFeeInfo)
    (hpos : ∀ e ∈ entries, 0 < e.vsize) :
    (sortedEntriesDesc entries).Perm entries ∧
    (sortedEntriesDesc entries).Pairwise DescRate ∧
    ∃ gs : List (List TxFeeInfo),
      gs.flatten = sortedEntriesDesc entries ∧
      (∀ g ∈ gs, g ≠ []) ∧
      make_fee_histogram entries = gs.map (fun g => (rateOfLast g, vsizeSum g)) ∧
      (∀ g ∈ gs.dropLast, VSIZE_BIN_WIDTH ≤ vsizeSum g) ∧
      (∀ g ∈ gs, ∀ e ∈ g, rateOfLast g ≤ e.fee_per_vbyte) := by
  have hperm : (sortedEntriesDesc entries).Perm entries := by
    unfold sortedEntriesDesc
    exact (List.reverse_perm _).trans (List.mergeSort_perm _ _)
  have hsorted : (sortedEntriesDesc entries).Pairwise DescRate := by
    unfold sortedEntriesDesc
    rw [List.pairwise_reverse]
    have := @List.sorted_mergeSort TxFeeInfo
      (fun a b : TxFeeInfo => decide (a.fee_per_vbyte ≤ b.fee_per_vbyte))
      (fun a b c hab hbc => by
        simp only [decide_eq_true_eq] at hab hbc ⊢
        exact le_trans hab hbc)
      (fun a b => by
        simp only [Bool.or_eq_true, decide_eq_true_eq]
        exact le_total _ _)
      entries
    exact this.imp (fun h => by simpa [DescRate] using h)
  refine ⟨hperm, hsorted, ?_⟩
  have hpos' : ∀ e ∈ sortedEntriesDesc entries, 0 < e.vsize := by
    intro e he
    exact hpos e (hperm.mem_iff.mp he)
  match hs : sortedEntriesDesc entries with
  | [] =>
    refine ⟨[], by simp, by simp, ?_, by simp, by simp⟩
    simp [make_fee_histogram, hs, histogramLoop]
  | e :: rest =>
    rw [hs] at hpos'
    obtain ⟨gs, hflat, _, hallne, hloop, hwidth⟩ :=
      histogramLoop_groups rest [e] (by simp) (by simpa using hpos')
    refine ⟨gs, by simpa using hflat, hallne, ?_, hwidth, ?_⟩
    · have hstart : make_fee_histogram entries
          = histogramLoop rest (0 + e.vsize) e.fee_per_vbyte := by
        have : ¬ (VSIZE_BIN_WIDTH < 0 ∧ (0 : ℚ) ≠ e.fee_per_vbyte) := by
          intro h; exact absurd h.1 (by simp)
        simp [make_fee_histogram, hs, histogramLoop, this]
      rw [hstart]
      have h1 : vsizeSum [e] = e.vsize := by simp [vsizeSum]
      have h2 : rateOfLast [e] = e.fee_per_vbyte := rateOfLast_single e
      rw [h1, h2] at hloop
      simpa using hloop
    · intro g hg e' he'
      have hsort' : g.Pairwise DescRate := by
        have : gs.flatten.Pairwise DescRate := by
          rw [hflat]
          simp only [List.singleton_append]
          rw [← hs]
          exact hsorted
        exact ((List.pairwise_flatten.mp this).1) g hg
      exact rateOfLast_le g hsort' e' he'

lemma beDigits_length (w : Nat) : ∀ n, (beDigits w n).length = w := by
  induction w with
  | zero => intro n; simp [beDigits]
  | succ w ih => intro n; simp [beDigits, ih]

lemma beDigits_lex (w : Nat) : ∀ m n : Nat, m < n → n < 256 ^ w →
    List.Lex (· < ·) (beDigits w m) (beDigits w n) := by
  induction w with
  | zero =>
    intro m n hmn hn
    simp at hn
    omega
  | succ w ih =>
    intro m n hmn hn
    have hpow : 0 < 256 ^ w := Nat.pos_pow_of_pos w (by norm_num)
    have hmul : 256 ^ (w + 1) = 256 * 256 ^ w := by ring
    have hdn : n / 256 ^ w < 256 := by
      rw [Nat.div_lt_iff_lt_mul hpow, ← hmul]
      exact hn
    have hdm : m / 256 ^ w < 256 := by
      rw [Nat.div_lt_iff_lt_mul hpow, ← hmul]
      exact lt_trans hmn hn
    have hdle : m / 256 ^ w ≤ n / 256 ^ w := Nat.div_le_div_right (le_of_lt hmn)
    rcases lt_or_eq_of_le hdle with hlt | heq
    · apply List.Lex.rel
      simpa [Nat.mod_eq_of_lt hdm, Nat.mod_eq_of_lt hdn] using hlt
    · have hheads : (m / 256 ^ w) % 256 = (n / 256 ^ w) % 256 := by rw [heq]
      have e1 := Nat.div_add_mod m (256 ^ w)
      have e2 := Nat.div_add_mod n (256 ^ w)
      rw [heq] at e1
      have hmod : m % 256 ^ w < n % 256 ^ w := by omega
      have hmodlt : n % 256 ^ w < 256 ^ w := Nat.mod_lt _ hpow
      show List.Lex (· < ·)
        ((m / 256 ^ w) % 256 :: beDigits w (m % 256 ^ w))
        ((n / 256 ^ w) % 256 :: beDigits w (n % 256 ^ w))
      rw [hheads]
      exact List.Lex.cons (ih _ _ hmod hmodlt)

lemma lex_append_of_lex : ∀ (a b : List Byte), a.length = b.length →
    List.Lex (· < ·) a b → ∀ (u v : List Byte),
    List.Lex (· < ·) (a ++ u) (b ++ v) := by
  intro a
  induction a with
  | nil =>
    intro b hlen h u v
    cases h
    simp at hlen
  | cons x xs ih =>
    intro b hlen h u v
    cases h with
    | rel hxy => exact List.Lex.rel hxy
    | cons h' => exact List.Lex.cons (ih _ (by simpa using hlen) h' u v)

lemma lex_append_left (p : List Byte) (a b : List Byte)
    (h : List.Lex (· < ·) a b) : List.Lex (· < ·) (p ++ a) (p ++ b) := by
  induction p with
  | nil => exact h
  | cons x xs ih => exact List.Lex.cons ih

lemma lex_append_cons (l : List Byte) (a : Byte) (t : List Byte) :
    List.Lex (· < ·) l (l ++ a :: t) := by
  induction l with
  | nil => exact List.Lex.nil
  | cons x xs ih => exact List.Lex.cons ih

lemma lex_asymm {a b : List Byte} (h1 : List.Lex (· < ·) a b)
    (h2 : List.Lex (· < ·) b a) : False :=
  (inferInstance : IsAsymm (List Nat) (List.Lex (· < ·))).asymm a b h1 h2

/-- Claim C5: for `H`-rows with the same code byte and the same hash, the
serialized key order agrees with the height order (strictly smaller height →
strictly lexicographically smaller key, whatever the info payloads), and a
key of that code/hash is ≥ the scan-start key `prefix_height(code, hash, h)`
iff its height is ≥ h — so a forward scan from that key yields exactly the
rows with height ≥ h, in chronological order. -/
theorem tx_history_key_order :
    (∀ (code : Byte) (hash : List Byte) (h1 h2 : Nat) (info1 info2 : List Byte),
      h1 < h2 → h2 < 2 ^ 32 →
      bytesLt (historyRowKey code hash h1 info1) (historyRowKey code hash h2 info2)) ∧
    (∀ (code : Byte) (hash : List Byte) (h ht : Nat) (info : List Byte),
      h < 2 ^ 32 → ht < 2 ^ 32 →
      (bytesLe (historyScanStart code hash h) (historyRowKey code hash ht info) ↔ h ≤ ht)) := by
  have hb32 : (2 : Nat) ^ 32 = 256 ^ 4 := by norm_num
  have hlen : ∀ m n : Nat, (be32 m).length = (be32 n).length := by
    intro m n
    simp [be32, beDigits_length]
  constructor
  · intro code hash h1 h2 info1 info2 hlt hb
    have hlex : List.Lex (· < ·) (be32 h1) (be32 h2) :=
      beDigits_lex 4 h1 h2 hlt (by rw [← hb32]; exact hb)
    exact List.Lex.cons
      (lex_append_left hash _ _ (lex_append_of_lex _ _ (hlen h1 h2) hlex info1 info2))
  · intro code hash h ht info hhb htb
    constructor
    · intro hle
      by_contra hgt
      push_neg at hgt
      have hlex : List.Lex (· < ·) (be32 ht ++ info) (be32 h) := by
        have := lex_append_of_lex _ _ (hlen ht h)
          (beDigits_lex 4 ht h hgt (by rw [← hb32]; exact hhb)) info []
        simpa using this
      have hkeylt : bytesLt (historyRowKey code hash ht info) (historyScanStart code hash h) :=
        List.Lex.cons (lex_append_left hash _ _ hlex)
      rcases hle with heq | hlt
      · rw [heq] at hkeylt
        exact lex_asymm hkeylt hkeylt
      · exact lex_asymm hlt hkeylt
    · intro hle
      rcases Nat.lt_or_ge h ht with hlt | hge
      · right
        have hlex : List.Lex (· < ·) (be32 h) (be32 ht ++ info) := by
          have := lex_append_of_lex _ _ (hlen h ht)
            (beDigits_lex 4 h ht hlt (by rw [← hb32]; exact htb)) [] info
          simpa using this
        exact List.Lex.cons (lex_append_left hash _ _ hlex)
      · have heq : h = ht := Nat.le_antisymm hle hge
        subst heq
        match info with
        | [] =>
          left
          simp [historyScanStart, historyRowKey]
        | i :: is =>
          right
          show List.Lex (· < ·) (code :: (hash ++ be32 h)) _
          apply List.Lex.cons
          rw [show hash ++ (be32 h ++ i :: is) = (hash ++ be32 h) ++ i :: is by
            simp [List.append_assoc]]
          exact lex_append_cons _ _ _

lemma utxo_delta_loop_ok_shape (limit : Nat) :
    ∀ (l : List (TxHistoryRow × BlockId)) (m : UtxoMap) (lb : Option Nat) (n : Nat)
      (r : UtxoMap × Option Nat × Nat),
      utxo_delta_loop limit l m lb n = .ok r →
      r.1 = l.foldl utxoStep m ∧ (r.1.length ≤ limit ∨ l = []) := by
  intro l
  induction l with
  | nil =>
    intro m lb n r h
    simp only [utxo_delta_loop, Except.ok.injEq] at h
    subst h
    simp
  | cons rb rest ih =>
    intro m lb n r h
    simp only [utxo_delta_loop] at h
    split at h
    · exact absurd h (by simp)
    · obtain ⟨hshape, _⟩ := ih _ _ _ _ h
      refine ⟨by simpa using hshape, Or.inl ?_⟩
      rcases ih _ _ _ _ h with ⟨_, hlen | hrest⟩
      · exact hlen
      · subst hrest
        rw [hshape]
        simp only [List.foldl_nil]
        omega

lemma utxo_delta_loop_err (limit : Nat) :
    ∀ (l : List (TxHistoryRow × BlockId)) (m : UtxoMap) (lb : Option Nat) (n : Nat),
      (utxo_delta_loop limit l m lb n = .error .TooPopular ↔
        ∃ k, 0 < k ∧ k ≤ l.length ∧ limit < ((l.take k).foldl utxoStep m).length) := by
  intro l
  induction l with
  | nil =>
    intro m lb n
    constructor
    · intro h
      exact absurd h (by simp [utxo_delta_loop])
    · rintro ⟨k, hk0, hkle, _⟩
      simp at hkle
      omega
  | cons rb rest ih =>
    intro m lb n
    simp only [utxo_delta_loop]
    by_cases hc : limit < (utxoStep m rb).length
    · simp only [hc, if_true]
      constructor
      · intro _
        exact ⟨1, one_pos, by simp, by simpa using hc⟩
      · intro _
        trivial
    · simp only [hc, if_false]
      rw [ih]
      constructor
      · rintro ⟨k, hk0, hkle, hlt⟩
        refine ⟨k + 1, Nat.succ_pos _, by simpa using Nat.succ_le_succ hkle, ?_⟩
        simpa [List.take_succ_cons] using hlt
      · rintro ⟨k, hk0, hkle, hlt⟩
        obtain ⟨k', rfl⟩ : ∃ k', k = k' + 1 := ⟨k - 1, by omega⟩
        rw [List.take_succ_cons, List.foldl_cons] at hlt
        match k', hlt with
        | 0, hlt => exact absurd (by simpa using hlt) hc
        | k' + 1, hlt =>
          exact ⟨k' + 1, Nat.succ_pos _, by simpa using hkle, hlt⟩

/-- Claim C1: `ChainQuery::utxo` (without a prior cache row) folds the
script's confirmed history rows in scan order — Funding inserts the funded
outpoint into the working map, Spending removes it — errors with
`TooPopular` exactly when the working map exceeds `limit` after some step of
the fold, and on success returns the final map (at most `limit` entries)
formatted as `Utxo` items. -/
theorem chain_utxo_fold (confirming : Txid → Option BlockId) (rows : List TxHistoryRow)
    (limit : Nat) :
    (ChainQuery.utxo confirming rows none limit = .error .TooPopular ↔
      ∃ k, 0 < k ∧ k ≤ (confirmedRows confirming rows 0).length ∧
        limit < (((confirmedRows confirming rows 0).take k).foldl utxoStep []).length) ∧
    ∀ us, ChainQuery.utxo confirming rows none limit = .ok us →
      us = ((confirmedRows confirming rows 0).foldl utxoStep []).map utxoToItem ∧
      us.length ≤ limit := by
  constructor
  · rw [← utxo_delta_loop_err limit (confirmedRows confirming rows 0) [] none 0]
    unfold ChainQuery.utxo ChainQuery.utxo_delta
    cases h : utxo_delta_loop limit (confirmedRows confirming rows 0) [] none 0 with
    | error e =>
      cases e
      simp
    | ok r =>
      simp
  · intro us h
    unfold ChainQuery.utxo ChainQuery.utxo_delta at h
    cases hl : utxo_delta_loop limit (confirmedRows confirming rows 0) [] none 0 with
    | error e =>
      rw [hl] at h
      exact absurd h (by simp)
    | ok r =>
      obtain ⟨hshape, hlen⟩ := utxo_delta_loop_ok_shape limit _ _ _ _ r hl
      rw [hl] at h
      simp only [Except.ok.injEq] at h
      subst h
      refine ⟨by rw [hshape], ?_⟩
      rcases hlen with hle | hnil
      · simpa using hle
      · rw [hnil] at hshape
        simp only [List.foldl_nil] at hshape
        simp [hshape]

/-- Witness for `chain_utxo_fold` on a concrete one-row history with
limit 1. -/
theorem chain_utxo_fold_witness :
    ChainQuery.utxo witConfirming witRows none 1
      = .ok (((confirmedRows witConfirming witRows 0).foldl utxoStep []).map utxoToItem) ∧
    (((confirmedRows witConfirming witRows 0).foldl utxoStep []).map utxoToItem).length ≤ 1 := by
  have h : ChainQuery.utxo witConfirming witRows none 1
      = .ok [{ txid := 1, vout := 0, color_id := defaultColorId, value := 5
               confirmed := some ⟨10, 100⟩ }] := by rfl
  obtain ⟨h1, h2⟩ := (chain_utxo_fold witConfirming witRows 1).2 _ h
  exact ⟨by rw [h, h1], h1 ▸ h2⟩

/-- Claim C4: if `Mempool::update`'s fetch of the full transactions for the
newly appearing txids fails, the update returns `Ok` without modifying any
mempool state — txstore, history, colors, edges, feeinfo, overviews and
recent are all exactly as they were. -/
theorem mempool_update_fetch_error_preserves
    (cfg : MempoolConfig) (chainTxos : OutPoint → Option TxOut) (mp : Mempool)
    (txs : List (Txid × Nat)) (backlogExpired : Bool) :
    Mempool.update cfg chainTxos mp (.ok txs) (.error ()) backlogExpired = .ok mp ∧
    ∀ mp', Mempool.update cfg chainTxos mp (.ok txs) (.error ()) backlogExpired = .ok mp' →
      mp'.txstore = mp.txstore ∧ mp'.history = mp.history ∧ mp'.colors = mp.colors ∧
      mp'.edges = mp.edges ∧ mp'.feeinfo = mp.feeinfo ∧ mp'.overviews = mp.overviews ∧
      mp'.recent = mp.recent := by
  have h : Mempool.update cfg chainTxos mp (.ok txs) (.error ()) backlogExpired = .ok mp := rfl
  refine ⟨h, ?_⟩
  intro mp' h'
  rw [h] at h'
  obtain rfl : mp = mp' := by simpa using h'
  exact ⟨rfl, rfl, rfl, rfl, rfl, rfl, rfl⟩

/-- Witness for `mempool_update_fetch_error_preserves` on the scenario
mempool. -/
theorem mempool_update_fetch_error_preserves_witness :
    Mempool.update witCfg scChainTxos scenarioMempool (.ok []) (.error ()) true
      = .ok scenarioMempool ∧
    scenarioMempool.txstore = scenarioMempool.txstore ∧
    scenarioMempool.history = scenarioMempool.history :=
  ⟨(mempool_update_fetch_error_preserves witCfg scChainTxos scenarioMempool [] true).1,
   ((mempool_update_fetch_error_preserves witCfg scChainTxos scenarioMempool [] true).2
      scenarioMempool
      (mempool_update_fetch_error_preserves witCfg scChainTxos scenarioMempool [] true).1).1,
   ((mempool_update_fetch_error_preserves witCfg scChainTxos scenarioMempool [] true).2
      scenarioMempool
      (mempool_update_fetch_error_preserves witCfg scChainTxos scenarioMempool [] true).1).2.1⟩

/-- Claim C7: no UTXO returned by `Query::utxo` has a spend edge in the
mempool (confirmed UTXOs with a mempool spend are filtered out, and the
mempool's own funding outputs are filtered the same way); in the concrete
two-transaction scenario — confirmed T1 funds the script, mempool T2 spends
that output — the returned UTXO set is empty. -/
theorem query_utxo_excludes_mempool_spent :
    (∀ (confirming : Txid → Option BlockId) (rows : List TxHistoryRow)
      (cache : Option (UtxoMap × Nat)) (limit : Nat) (mp : Mempool)
      (scripthash : ScriptHash) (us : List Utxo),
      Query.utxo confirming rows cache limit mp scripthash = .ok us →
      ∀ u ∈ us, mp.has_spend (OutPoint.fromUtxo u) = false) ∧
    Query.utxo witConfirming witRows none 10 scenarioMempool
      (compute_script_hash p2pkhScript) = .ok [] := by
  constructor
  · intro confirming rows cache limit mp scripthash us h u hu
    unfold Query.utxo at h
    cases hc : ChainQuery.utxo confirming rows cache limit with
    | error e =>
      rw [hc] at h
      exact absurd h (by simp)
    | ok utxos =>
      rw [hc] at h
      simp only [Except.ok.injEq] at h
      subst h
      rcases List.mem_append.mp hu with hmem | hmem
      · have := (List.mem_filter.mp hmem).2
        simpa using this
      · unfold Mempool.utxo at hmem
        cases he : assocGet mp.history scripthash with
        | none =>
          rw [he] at hmem
          simp at hmem
        | some entries =>
          rw [he] at hmem
          have := (List.mem_filter.mp hmem).2
          simpa using this
  · rfl

/-- Witness for `query_utxo_excludes_mempool_spent` with an empty mempool:
the returned confirmed UTXO has no spend edge. -/
theorem query_utxo_excludes_mempool_spent_witness :
    witEmptyMempool.has_spend (OutPoint.fromUtxo
      { txid := 1, vout := 0, color_id := defaultColorId, value := 5
        confirmed := some ⟨10, 100⟩ }) = false :=
  query_utxo_excludes_mempool_spent.1 witConfirming witRows none 1 witEmptyMempool
    (compute_script_hash p2pkhScript)
    [{ txid := 1, vout := 0, color_id := defaultColorId, value := 5
       confirmed := some ⟨10, 100⟩ }] (by rfl)
    _ (by simp)

lemma consumeLoop_terminates :
    ∀ (n : Nat) (st : TransferState) (q : Nat) (aid : Option AssetId),
      q + st.stream.length + 1 ≤ n → CurOk st → q ≤ unitCount st →
      ∃ r, consumeLoop n st q aid = some r ∧
        ∀ st' aid', r = .ok (st', aid') →
          CurOk st' ∧ unitCount st' + q = unitCount st ∧
            st'.stream.length ≤ st.stream.length := by
  intro n
  induction n with
  | zero =>
    intro st q aid hfuel _ _
    omega
  | succ m ih =>
    intro st q aid hfuel hcur hcount
    by_cases hq : q = 0
    · subst hq
      refine ⟨.ok (st, aid), by simp [consumeLoop], ?_⟩
      intro st' aid' hr
      injection hr with hr
      injection hr with h1 h2
      subst h1
      exact ⟨hcur, by omega, le_refl _⟩
    · by_cases hiul : st.input_units_left = 0
      · obtain ⟨sl, hstream⟩ : ∃ l, st.stream = l := ⟨_, rfl⟩
        match sl, hstream with
        | [], hstream =>
          exfalso
          have : unitCount st = 0 := by
            simp [unitCount, streamQty, hiul, hstream]
          omega
        | (xo, xa) :: rest, hstream =>
          match hx : xa with
          | some asset =>
            subst hx
            have hcount' : unitCount st = asset.asset_quantity + streamQty rest := by
              simp [unitCount, streamQty, hiul, hstream]
            set Q := asset.asset_quantity with hQ
            set progress := min Q q with hprog
            have hple : progress ≤ Q ∧ progress ≤ q := ⟨min_le_left _ _, min_le_right _ _⟩
            have hstep : consumeLoop (m + 1) st q aid
                = match aid with
                  | none => consumeLoop m ⟨rest, some (xo, some asset), Q - progress⟩
                      (q - progress) (some asset.asset_id)
                  | some a =>
                    if a = asset.asset_id then
                      consumeLoop m ⟨rest, some (xo, some asset), Q - progress⟩
                        (q - progress) (some a)
                    else some (.error ()) := by
              simp only [consumeLoop]
              rw [if_neg hq, if_pos hiul, hstream]
            have hrec : ∀ aid', ∃ r,
                consumeLoop m ⟨rest, some (xo, some asset), Q - progress⟩ (q - progress)
                  aid' = some r ∧
                ∀ st' aid'', r = .ok (st', aid'') →
                  CurOk st' ∧ unitCount st' + (q - progress)
                      = unitCount ⟨rest, some (xo, some asset), Q - progress⟩ ∧
                    st'.stream.length ≤ rest.length := by
              intro aid'
              apply ih
              · rw [hstream] at hfuel
                simp at hfuel ⊢
                omega
              · intro _
                exact ⟨xo, asset, rfl⟩
              · have : unitCount ⟨rest, some (xo, some asset), Q - progress⟩
                    = (Q - progress) + streamQty rest := rfl
                omega
            have hconc : ∀ (r : Except Unit (TransferState × Option AssetId)),
                (∀ st' aid'', r = .ok (st', aid'') →
                  CurOk st' ∧ unitCount st' + (q - progress)
                      = unitCount ⟨rest, some (xo, some asset), Q - progress⟩ ∧
                    st'.stream.length ≤ rest.length) →
                ∀ st' aid', r = .ok (st', aid') →
                  CurOk st' ∧ unitCount st' + q = unitCount st ∧
                    st'.stream.length ≤ st.stream.length := by
              intro r hr st' aid' heq
              obtain ⟨h1, h2, h3⟩ := hr st' aid' heq
              refine ⟨h1, ?_, ?_⟩
              · have : unitCount ⟨rest, some (xo, some asset), Q - progress⟩
                    = (Q - progress) + streamQty rest := rfl
                omega
              · rw [hstream]
                simp
                omega
            match aid with
            | none =>
              obtain ⟨r, hr, hrconc⟩ := hrec (some asset.asset_id)
              exact ⟨r, by rw [hstep]; exact hr, hconc r hrconc⟩
            | some a =>
              by_cases ha : a = asset.asset_id
              · obtain ⟨r, hr, hrconc⟩ := hrec (some a)
                refine ⟨r, ?_, hconc r hrconc⟩
                rw [hstep]
                show (if a = asset.asset_id then _ else _) = _
                rw [if_pos ha]
                exact hr
              · refine ⟨.error (), ?_, by intro _ _ h; cases h⟩
                rw [hstep]
                show (if a = asset.asset_id then _ else _) = _
                rw [if_neg ha]
          | none =>
            subst hx
            have hstep : consumeLoop (m + 1) st q aid
                = consumeLoop m ⟨rest, some (xo, none), st.input_units_left⟩ q aid := by
              simp only [consumeLoop]
              rw [if_neg hq, if_pos hiul, hstream]
            have hcount' : unitCount ⟨rest, some (xo, none), st.input_units_left⟩
                = unitCount st := by
              simp [unitCount, streamQty, hstream]
            obtain ⟨r, hr, hrconc⟩ := ih ⟨rest, some (xo, none), st.input_units_left⟩ q aid
              (by rw [hstream] at hfuel; simp at hfuel ⊢; omega)
              (by intro h; exact absurd hiul h)
              (by omega)
            refine ⟨r, by rw [hstep]; exact hr, ?_⟩
            intro st' aid' heq
            obtain ⟨h1, h2, h3⟩ := hrconc st' aid' heq
            have h3' : st'.stream.length ≤ rest.length := h3
            refine ⟨h1, by omega, ?_⟩
            rw [hstream]
            simp
            omega
      · -- consume from the current input
        obtain ⟨x, asset, hx⟩ := hcur hiul
        set K := st.input_units_left with hK
        set progress := min K q with hprog
        have hple : progress ≤ K ∧ progress ≤ q := ⟨min_le_left _ _, min_le_right _ _⟩
        have hppos : 1 ≤ progress := by
          have h1 : 1 ≤ K := by omega
          have h2 : 1 ≤ q := by omega
          omega
        have hstep : consumeLoop (m + 1) st q aid
            = match aid with
              | none => consumeLoop m { st with input_units_left := K - progress }
                  (q - progress) (some asset.asset_id)
              | some a =>
                if a = asset.asset_id then
                  consumeLoop m { st with input_units_left := K - progress }
                    (q - progress) (some a)
                else some (.error ()) := by
          simp only [consumeLoop]
          rw [if_neg hq, if_neg hiul, hx]
        have hrec : ∀ aid', ∃ r,
            consumeLoop m { st with input_units_left := K - progress } (q - progress) aid'
              = some r ∧
            ∀ st' aid'', r = .ok (st', aid'') →
              CurOk st' ∧ unitCount st' + (q - progress)
                  = unitCount { st with input_units_left := K - progress } ∧
                st'.stream.length ≤ st.stream.length := by
          intro aid'
          apply ih
          · simp
            omega
          · intro _
            exact ⟨x, asset, hx⟩
          · have : unitCount { st with input_units_left := K - progress }
                = (K - progress) + streamQty st.stream := rfl
            have hc : unitCount st = K + streamQty st.stream := rfl
            omega
        have hconc : ∀ (r : Except Unit (TransferState × Option AssetId)),
            (∀ st' aid'', r = .ok (st', aid'') →
              CurOk st' ∧ unitCount st' + (q - progress)
                  = unitCount { st with input_units_left := K - progress } ∧
                st'.stream.length ≤ st.stream.length) →
            ∀ st' aid', r = .ok (st', aid') →
              CurOk st' ∧ unitCount st' + q = unitCount st ∧
                st'.stream.length ≤ st.stream.length := by
          intro r hr st' aid' heq
          obtain ⟨h1, h2, h3⟩ := hr st' aid' heq
          refine ⟨h1, ?_, h3⟩
          have : unitCount { st with input_units_left := K - progress }
              = (K - progress) + streamQty st.stream := rfl
          have hc : unitCount st = K + streamQty st.stream := rfl
          omega
        match aid with
        | none =>
          obtain ⟨r, hr, hrconc⟩ := hrec (some asset.asset_id)
          exact ⟨r, by rw [hstep]; exact hr, hconc r hrconc⟩
        | some a =>
          by_cases ha : a = asset.asset_id
          · obtain ⟨r, hr, hrconc⟩ := hrec (some a)
            refine ⟨r, ?_, hconc r hrconc⟩
            rw [hstep]
            show (if a = asset.asset_id then _ else _) = _
            rw [if_pos ha]
            exact hr
          · refine ⟨.error (), ?_, by intro _ _ h; cases h⟩
            rw [hstep]
            show (if a = asset.asset_id then _ else _) = _
            rw [if_neg ha]

lemma transferOutputs_terminates (metadata : Metadata) :
    ∀ (qs : List Nat) (st : TransferState) (fuel : Nat),
      qs.sum + st.stream.length + 1 ≤ fuel → CurOk st → qs.sum ≤ unitCount st →
      ∃ r, transferOutputs fuel metadata qs st = some r := by
  intro qs
  induction qs with
  | nil =>
    intro st fuel _ _ _
    exact ⟨.ok [], rfl⟩
  | cons q rest ih =>
    intro st fuel hfuel hcur hcount
    simp only [List.sum_cons] at hfuel hcount
    obtain ⟨r, hr, hrconc⟩ := consumeLoop_terminates fuel st q none
      (by omega) hcur (by omega)
    match r, hr with
    | .error e, hr =>
      refine ⟨.error e, ?_⟩
      simp only [transferOutputs, hr]
    | .ok (st', aid), hr =>
      obtain ⟨h1, h2, h3⟩ := hrconc st' aid rfl
      obtain ⟨r2, hr2⟩ := ih st' fuel (by omega) h1 (by omega)
      match r2, hr2 with
      | .error e, hr2 =>
        refine ⟨.error e, ?_⟩
        simp only [transferOutputs, hr, hr2]
      | .ok l, hr2 =>
        refine ⟨.ok ((match aid with
          | some a2 => if 0 < q then some (⟨a2, q, metadata⟩ : OpenAsset) else none
          | none => none) :: l), ?_⟩
        simp only [transferOutputs, hr, hr2]
        cases aid <;> rfl

lemma consumeLoop_stuck :
    ∀ (k q : Nat) (aid : Option AssetId), q ≠ 0 →
      consumeLoop k ⟨[], none, 0⟩ q aid = none := by
  intro k
  induction k with
  | zero => intro q aid _; rfl
  | succ m ih =>
    intro q aid hq
    have hstep : consumeLoop (m + 1) ⟨[], none, 0⟩ q aid
        = consumeLoop m ⟨[], none, 0⟩ q aid := by
      simp only [consumeLoop, if_neg hq]
      rfl
    rw [hstep]
    exact ih q aid hq

lemma assetUnits_cons_none (xo : TxOut) (rest : List (TxOut × Option OpenAsset)) :
    assetUnits ((xo, none) :: rest) = assetUnits rest := by
  simp [assetUnits]

lemma assetUnits_cons_some (xo : TxOut) (a : OpenAsset)
    (rest : List (TxOut × Option OpenAsset)) :
    assetUnits ((xo, some a) :: rest)
      = List.replicate a.asset_quantity a.asset_id ++ assetUnits rest := by
  simp [assetUnits]

lemma stateUnits_iul_zero (st : TransferState) (h : st.input_units_left = 0) :
    stateUnits st = assetUnits st.stream := by
  unfold stateUnits
  rw [h]
  match st.current with
  | none => simp
  | some (x, none) => simp
  | some (x, some a) => simp

lemma streamPos_tail {p : TxOut × Option OpenAsset}
    {rest : List (TxOut × Option OpenAsset)} (h : StreamPos (p :: rest)) :
    StreamPos rest :=
  fun x hx a ha => h x (List.mem_cons_of_mem _ hx) a ha

lemma consumeUnits_chunk (idA : AssetId) :
    ∀ (q Q : Nat) (restU : List AssetId) (aid : Option AssetId),
      (aid = none ∨ aid = some idA) →
      consumeUnits q aid (List.replicate Q idA ++ restU)
        = if q ≤ Q then
            some (.ok ((if q = 0 then aid else some idA),
              List.replicate (Q - q) idA ++ restU))
          else consumeUnits (q - Q) (if Q = 0 then aid else some idA) restU := by
  intro q
  induction q with
  | zero =>
    intro Q restU aid _
    simp [consumeUnits]
  | succ k ih =>
    intro Q restU aid hcompat
    match Q with
    | 0 =>
      simp [consumeUnits]
    | Q' + 1 =>
      rw [List.replicate_succ, List.cons_append]
      have hstep : consumeUnits (k + 1) aid (idA :: (List.replicate Q' idA ++ restU))
          = consumeUnits k (some idA) (List.replicate Q' idA ++ restU) := by
        rcases hcompat with h | h
        · subst h
          rfl
        · subst h
          show (if idA = idA then _ else _) = _
          rw [if_pos rfl]
      rw [hstep, ih Q' restU (some idA) (Or.inr rfl)]
      by_cases hle : k ≤ Q'
      · have h1 : (if k = 0 then some idA else some idA) = some idA := ite_self _
        have h2 : ¬ (k + 1 = 0) := by omega
        have hle' : k + 1 ≤ Q' + 1 := by omega
        rw [if_pos hle, h1, if_pos hle', if_neg h2,
          show Q' + 1 - (k + 1) = Q' - k from by omega]
      · have h1 : (if Q' = 0 then some idA else some idA) = some idA := ite_self _
        have h2 : ¬ (Q' + 1 = 0) := by omega
        have hle' : ¬ (k + 1 ≤ Q' + 1) := by omega
        rw [if_neg hle, h1, if_neg hle', if_neg h2,
          show k + 1 - (Q' + 1) = k - Q' from by omega]

lemma consumeLoop_sim :
    ∀ (n : Nat) (st : TransferState) (q : Nat) (aid : Option AssetId),
      q + st.stream.length + 1 ≤ n → StreamPos st.stream → CurOk st →
      (match consumeUnits q aid (stateUnits st) with
       | none => True
       | some (.error _) => consumeLoop n st q aid = some (.error ())
       | some (.ok (aid', units')) =>
         ∃ st', consumeLoop n st q aid = some (.ok (st', aid')) ∧
           stateUnits st' = units' ∧ StreamPos st'.stream ∧ CurOk st' ∧
           st'.stream.length ≤ st.stream.length) := by
  intro n
  induction n with
  | zero => intro st q aid hfuel _ _; omega
  | succ m ih =>
    intro st q aid hfuel hpos hcur
    by_cases hq0 : q = 0
    · subst hq0
      exact ⟨st, by simp [consumeLoop], rfl, hpos, hcur, le_refl _⟩
    · obtain ⟨k, rfl⟩ : ∃ k, q = k + 1 := ⟨q - 1, by omega⟩
      clear hq0
      obtain ⟨sstream, scur, siul⟩ := st
      by_cases hiul : siul = 0
      · subst hiul
        cases sstream with
        | nil =>
          have hunits : stateUnits ⟨[], scur, 0⟩ = [] := by
            rw [stateUnits_iul_zero _ rfl]
            rfl
          rw [hunits]
          trivial
        | cons hd rest =>
          obtain ⟨xo, xa⟩ := hd
          cases xa with
          | none =>
            have hstep : consumeLoop (m + 1) ⟨(xo, none) :: rest, scur, 0⟩ (k + 1) aid
                = consumeLoop m ⟨rest, some (xo, none), 0⟩ (k + 1) aid := rfl
            have hunits : stateUnits ⟨(xo, none) :: rest, scur, 0⟩
                = stateUnits ⟨rest, some (xo, none), 0⟩ := by
              rw [stateUnits_iul_zero _ rfl, stateUnits_iul_zero _ rfl]
              exact assetUnits_cons_none xo rest
            rw [hunits, hstep]
            have hIH := ih ⟨rest, some (xo, none), 0⟩ (k + 1) aid
              (by simp at hfuel ⊢; omega)
              (streamPos_tail hpos)
              (by intro h; exact absurd rfl h)
            revert hIH
            cases hval : consumeUnits (k + 1) aid (stateUnits ⟨rest, some (xo, none), 0⟩) with
            | none => intro _; trivial
            | some r =>
              match r with
              | .error e => intro h; exact h
              | .ok (aid', units') =>
                intro h
                obtain ⟨st', h1, h2, h3, h4, h5⟩ := h
                refine ⟨st', h1, h2, h3, h4, ?_⟩
                have h5' : st'.stream.length ≤ rest.length := h5
                simp
                omega
          | some asset =>
            have hQpos : 0 < asset.asset_quantity :=
              hpos (xo, some asset) (by simp) asset rfl
            have hunits : stateUnits ⟨(xo, some asset) :: rest, scur, 0⟩
                = List.replicate asset.asset_quantity asset.asset_id ++ assetUnits rest := by
              rw [stateUnits_iul_zero _ rfl]
              exact assetUnits_cons_some xo asset rest
            have hunits2 : stateUnits ⟨rest, some (xo, some asset),
                  asset.asset_quantity - min asset.asset_quantity (k + 1)⟩
                = List.replicate (asset.asset_quantity - min asset.asset_quantity (k + 1))
                    asset.asset_id ++ assetUnits rest := rfl
            have hscgen : ∀ aid0 : Option AssetId, aid0 = none ∨ aid0 = some asset.asset_id →
                consumeUnits (k + 1) aid0 (stateUnits ⟨(xo, some asset) :: rest, scur, 0⟩)
                  = consumeUnits (k + 1 - min asset.asset_quantity (k + 1))
                      (some asset.asset_id)
                      (stateUnits ⟨rest, some (xo, some asset),
                        asset.asset_quantity - min asset.asset_quantity (k + 1)⟩) := by
              intro aid0 hcompat
              rw [hunits, hunits2,
                consumeUnits_chunk asset.asset_id (k + 1) asset.asset_quantity _ aid0 hcompat]
              by_cases hle : k + 1 ≤ asset.asset_quantity
              · rw [if_pos hle,
                  show min asset.asset_quantity (k + 1) = k + 1 from min_eq_right hle,
                  Nat.sub_self]
                simp only [consumeUnits]
                rw [show (if k + 1 = 0 then aid0 else some asset.asset_id)
                    = some asset.asset_id from if_neg (by omega)]
              · rw [if_neg hle,
                  show min asset.asset_quantity (k + 1) = asset.asset_quantity from
                    min_eq_left (by omega),
                  Nat.sub_self,
                  show (if asset.asset_quantity = 0 then aid0 else some asset.asset_id)
                    = some asset.asset_id from if_neg (by omega)]
                simp
            have hrest : ∀ aid1 : Option AssetId,
                consumeLoop (m + 1) ⟨(xo, some asset) :: rest, scur, 0⟩ (k + 1) aid
                  = consumeLoop m ⟨rest, some (xo, some asset),
                      asset.asset_quantity - min asset.asset_quantity (k + 1)⟩
                    (k + 1 - min asset.asset_quantity (k + 1)) aid1 →
                consumeUnits (k + 1) aid (stateUnits ⟨(xo, some asset) :: rest, scur, 0⟩)
                  = consumeUnits (k + 1 - min asset.asset_quantity (k + 1)) aid1
                      (stateUnits ⟨rest, some (xo, some asset),
                        asset.asset_quantity - min asset.asset_quantity (k + 1)⟩) →
                (match consumeUnits (k + 1) aid
                    (stateUnits ⟨(xo, some asset) :: rest, scur, 0⟩) with
                 | none => True
                 | some (.error _) =>
                   consumeLoop (m + 1) ⟨(xo, some asset) :: rest, scur, 0⟩ (k + 1) aid
                     = some (.error ())
                 | some (.ok (aid', units')) =>
                   ∃ st', consumeLoop (m + 1) ⟨(xo, some asset) :: rest, scur, 0⟩ (k + 1) aid
                       = some (.ok (st', aid')) ∧
                     stateUnits st' = units' ∧ StreamPos st'.stream ∧ CurOk st' ∧
                     st'.stream.length ≤ ((xo, some asset) :: rest).length) := by
              intro aid1 hstep hsc
              rw [hsc, hstep]
              have hIH := ih ⟨rest, some (xo, some asset),
                  asset.asset_quantity - min asset.asset_quantity (k + 1)⟩
                (k + 1 - min asset.asset_quantity (k + 1)) aid1
                (by simp at hfuel ⊢; omega)
                (streamPos_tail hpos)
                (by intro _; exact ⟨xo, asset, rfl⟩)
              revert hIH
              cases hval : consumeUnits (k + 1 - min asset.asset_quantity (k + 1)) aid1
                  (stateUnits ⟨rest, some (xo, some asset),
                    asset.asset_quantity - min asset.asset_quantity (k + 1)⟩) with
              | none => intro _; trivial
              | some r =>
                match r with
                | .error e => intro h; exact h
                | .ok (aid', units') =>
                  intro h
                  obtain ⟨st', h1, h2, h3, h4, h5⟩ := h
                  refine ⟨st', h1, h2, h3, h4, ?_⟩
                  have h5' : st'.stream.length ≤ rest.length := h5
                  simp
                  omega
            cases aid with
            | none =>
              exact hrest (some asset.asset_id) rfl (hscgen none (Or.inl rfl))
            | some a =>
              by_cases ha : a = asset.asset_id
              · subst ha
                refine hrest (some asset.asset_id) ?_
                  (hscgen (some asset.asset_id) (Or.inr rfl))
                show (if asset.asset_id = asset.asset_id then _ else _) = _
                rw [if_pos rfl]
                rfl
              · have hsc : consumeUnits (k + 1) (some a)
                    (stateUnits ⟨(xo, some asset) :: rest, scur, 0⟩) = some (.error ()) := by
                  rw [hunits,
                    show asset.asset_quantity = (asset.asset_quantity - 1) + 1 from by omega,
                    List.replicate_succ, List.cons_append]
                  show (if a = asset.asset_id then _ else _) = _
                  rw [if_neg ha]
                rw [hsc]
                show (if a = asset.asset_id then _ else _) = _
                rw [if_neg ha]
      · obtain ⟨K', rfl⟩ : ∃ K', siul = K' + 1 := ⟨siul - 1, by omega⟩
        clear hiul
        obtain ⟨x, asset, hx⟩ := hcur (by simp)
        have hx' : scur = some (x, some asset) := hx
        subst hx'
        have hunits : stateUnits ⟨sstream, some (x, some asset), K' + 1⟩
            = List.replicate (K' + 1) asset.asset_id ++ assetUnits sstream := rfl
        have hunits2 : stateUnits ⟨sstream, some (x, some asset),
              (K' + 1) - min (K' + 1) (k + 1)⟩
            = List.replicate ((K' + 1) - min (K' + 1) (k + 1)) asset.asset_id
                ++ assetUnits sstream := rfl
        have hscgen : ∀ aid0 : Option AssetId, aid0 = none ∨ aid0 = some asset.asset_id →
            consumeUnits (k + 1) aid0 (stateUnits ⟨sstream, some (x, some asset), K' + 1⟩)
              = consumeUnits (k + 1 - min (K' + 1) (k + 1)) (some asset.asset_id)
                  (stateUnits ⟨sstream, some (x, some asset),
                    (K' + 1) - min (K' + 1) (k + 1)⟩) := by
          intro aid0 hcompat
          rw [hunits, hunits2,
            consumeUnits_chunk asset.asset_id (k + 1) (K' + 1) _ aid0 hcompat]
          by_cases hle : k + 1 ≤ K' + 1
          · rw [if_pos hle, show min (K' + 1) (k + 1) = k + 1 from min_eq_right hle,
              Nat.sub_self]
            simp only [consumeUnits]
            rw [show (if k + 1 = 0 then aid0 else some asset.asset_id)
                = some asset.asset_id from if_neg (by omega)]
          · rw [if_neg hle, show min (K' + 1) (k + 1) = K' + 1 from min_eq_left (by omega),
              Nat.sub_self,
              show (if K' + 1 = 0 then aid0 else some asset.asset_id)
                = some asset.asset_id from if_neg (by omega)]
            simp
        have hrest : ∀ aid1 : Option AssetId,
            consumeLoop (m + 1) ⟨sstream, some (x, some asset), K' + 1⟩ (k + 1) aid
              = consumeLoop m ⟨sstream, some (x, some asset),
                  (K' + 1) - min (K' + 1) (k + 1)⟩
                (k + 1 - min (K' + 1) (k + 1)) aid1 →
            consumeUnits (k + 1) aid (stateUnits ⟨sstream, some (x, some asset), K' + 1⟩)
              = consumeUnits (k + 1 - min (K' + 1) (k + 1)) aid1
                  (stateUnits ⟨sstream, some (x, some asset),
                    (K' + 1) - min (K' + 1) (k + 1)⟩) →
            (match consumeUnits (k + 1) aid
                (stateUnits ⟨sstream, some (x, some asset), K' + 1⟩) with
             | none => True
             | some (.error _) =>
               consumeLoop (m + 1) ⟨sstream, some (x, some asset), K' + 1⟩ (k + 1) aid
                 = some (.error ())
             | some (.ok (aid', units')) =>
               ∃ st', consumeLoop (m + 1) ⟨sstream, some (x, some asset), K' + 1⟩ (k + 1) aid
                   = some (.ok (st', aid')) ∧
                 stateUnits st' = units' ∧ StreamPos st'.stream ∧ CurOk st' ∧
                 st'.stream.length ≤ sstream.length) := by
          intro aid1 hstep hsc
          rw [hsc, hstep]
          have hmin1 : 1 ≤ min (K' + 1) (k + 1) := le_min (by omega) (by omega)
          have hIH := ih ⟨sstream, some (x, some asset), (K' + 1) - min (K' + 1) (k + 1)⟩
            (k + 1 - min (K' + 1) (k + 1)) aid1
            (by simp at hfuel ⊢; omega)
            hpos
            (by intro _; exact ⟨x, asset, rfl⟩)
          revert hIH
          cases hval : consumeUnits (k + 1 - min (K' + 1) (k + 1)) aid1
              (stateUnits ⟨sstream, some (x, some asset),
                (K' + 1) - min (K' + 1) (k + 1)⟩) with
          | none => intro _; trivial
          | some r =>
            match r with
            | .error e => intro h; exact h
            | .ok (aid', units') =>
              intro h
              obtain ⟨st', h1, h2, h3, h4, h5⟩ := h
              exact ⟨st', h1, h2, h3, h4, h5⟩
        cases aid with
        | none =>
          exact hrest (some asset.asset_id) rfl (hscgen none (Or.inl rfl))
        | some a =>
          by_cases ha : a = asset.asset_id
          · subst ha
            refine hrest (some asset.asset_id) ?_
              (hscgen (some asset.asset_id) (Or.inr rfl))
            show (if asset.asset_id = asset.asset_id then _ else _) = _
            rw [if_pos rfl]
            rfl
          · have hsc : consumeUnits (k + 1) (some a)
                (stateUnits ⟨sstream, some (x, some asset), K' + 1⟩)
                  = some (.error ()) := by
              rw [hunits, List.replicate_succ, List.cons_append]
              show (if a = asset.asset_id then _ else _) = _
              rw [if_neg ha]
            rw [hsc]
            show (if a = asset.asset_id then _ else _) = _
            rw [if_neg ha]

lemma transferOutputs_sim (metadata : Metadata) :
    ∀ (qs : List Nat) (st : TransferState) (fuel : Nat),
      qs.sum + st.stream.length + 1 ≤ fuel → StreamPos st.stream → CurOk st →
      (match specTransfers metadata qs (stateUnits st) with
       | none => True
       | some (.error _) => transferOutputs fuel metadata qs st = some (.error ())
       | some (.ok l) => transferOutputs fuel metadata qs st = some (.ok l)) := by
  intro qs
  induction qs with
  | nil => intro st fuel _ _ _; simp [specTransfers, transferOutputs]
  | cons q rest ihq =>
    intro st fuel hfuel hpos hcur
    have hsim := consumeLoop_sim fuel st q none (by simp at hfuel; omega) hpos hcur
    cases hcu : consumeUnits q none (stateUnits st) with
    | none =>
      simp only [specTransfers, hcu]
    | some r =>
      match r with
      | .error e =>
        rw [hcu] at hsim
        have hloop : consumeLoop fuel st q none = some (.error ()) := hsim
        cases e
        simp only [specTransfers, hcu]
        simp only [transferOutputs, hloop]
      | .ok (aid', units') =>
        rw [hcu] at hsim
        obtain ⟨st', h1, h2, h3, h4, h5⟩ := hsim
        have hrest := ihq st' fuel (by simp at hfuel; omega) h3 h4
        rw [h2] at hrest
        simp only [specTransfers, hcu]
        revert hrest
        cases hst : specTransfers metadata rest units' with
        | none => intro _; simp only [hst]
        | some r2 =>
          match r2 with
          | .error e2 =>
            intro hrest
            cases e2
            simp only [hst]
            simp only [transferOutputs, h1, hrest]
          | .ok l =>
            intro hrest
            simp only [hst]
            simp only [transferOutputs, h1, hrest]

lemma streamPos_of_b (stream : List (TxOut × Option OpenAsset))
    (h : streamPosB stream = true) : StreamPos stream := by
  intro p hp a ha
  have hall := List.all_eq_true.mp h p hp
  rw [ha] at hall
  exact of_decide_eq_true hall

lemma specTransfers_length (metadata : Metadata) :
    ∀ (qs : List Nat) (units : List AssetId) (l : List (Option OpenAsset)),
      specTransfers metadata qs units = some (.ok l) → l.length = qs.length := by
  intro qs
  induction qs with
  | nil =>
    intro units l h
    simp [specTransfers] at h
    simp [h]
  | cons q rest ih =>
    intro units l h
    cases hcu : consumeUnits q none units with
    | none => simp [specTransfers, hcu] at h
    | some r =>
      match r with
      | .error e => simp [specTransfers, hcu] at h
      | .ok (aid, units') =>
        simp only [specTransfers, hcu] at h
        cases hst : specTransfers metadata rest units' with
        | none => rw [hst] at h; simp at h
        | some r2 =>
          match r2 with
          | .error e2 => rw [hst] at h; simp at h
          | .ok l2 =>
            rw [hst] at h
            simp only [Option.some.injEq, Except.ok.injEq] at h
            rw [← h]
            simp [ih units' l2 hst]

/-- Claim C2: `compute_assets` follows the spec's algorithm.  (A) For every
input whose colored previous outputs all carry positive quantities (true of
every asset the indexer itself attaches to a previous output, since
`get_amounts` only records positive quantities) and enough fuel, the result
refines the spec's unit-stream reading: the outputs below the marker index
are the issuance outputs (asset id derived from the first previous output's
script under the network tag, quantity from the quantities list), the marker
output is `none`, the transfer outputs are exactly those computed by
consuming each listed quantity from the stream of previous-output asset
units one unit at a time (`specTransfers`), the remaining outputs are
uncolored, and a spec-side invalid transfer (spanning different asset ids)
makes the source panic.  (B) On success the result reads positionally as the
claim states: index `i < marker` holds the issuance formula's value, index
`marker` holds `none`, and every index beyond `marker + quantities.length`
holds `none`.  (C) The protocol-spec example (marker at output 2, quantities
[0,10,6,0,7,3], the colored previous inputs of `test_compute_assets_both`)
yields asset_1(10) for output 1 and asset_2(6), asset_2(7), asset_3(3) for
the transfer outputs.  (D) A transfer spanning previous inputs with
different asset ids (quantity 14 against 13 units of asset 2 followed by
asset 3) is invalid: the source panics. -/
theorem compute_assets_follows_spec :
    (∀ (fuel : Nat) (first : TxOut × Option OpenAsset)
       (others : List (TxOut × Option OpenAsset)) (marker : Nat)
       (txn : Transaction) (qs : List Nat) (net : Network) (metadata : Metadata),
       StreamPos (first :: others) →
       qs.length ≤ txn.output.length - 1 →
       (qs.drop marker).sum + (first :: others).length + 1 ≤ fuel →
       (match specTransfers metadata (qs.drop marker)
           (assetUnits (first :: others)) with
        | none => True
        | some (.error _) =>
          compute_assets fuel (first :: others) marker txn qs net metadata
            = some (.error ())
        | some (.ok l) =>
          compute_assets fuel (first :: others) marker txn qs net metadata
            = some (.ok ((List.range marker).map (fun i =>
                  if i < qs.length ∧ 0 < qs.getD i 0 then
                    some (⟨AssetId.new first.1.script_pubkey net,
                      qs.getD i 0, metadata⟩ : OpenAsset)
                  else none)
                ++ [none] ++ l
                ++ List.replicate (txn.output.length - (qs.length + 1)) none)))) ∧
    (∀ (fuel : Nat) (first : TxOut × Option OpenAsset)
       (others : List (TxOut × Option OpenAsset)) (marker : Nat)
       (txn : Transaction) (qs : List Nat) (net : Network) (metadata : Metadata)
       (l r : List (Option OpenAsset)),
       StreamPos (first :: others) →
       qs.length ≤ txn.output.length - 1 →
       (qs.drop marker).sum + (first :: others).length + 1 ≤ fuel →
       marker ≤ qs.length →
       specTransfers metadata (qs.drop marker) (assetUnits (first :: others))
         = some (.ok l) →
       compute_assets fuel (first :: others) marker txn qs net metadata
         = some (.ok r) →
       (∀ i, i < marker → r[i]? =
          some (if i < qs.length ∧ 0 < qs.getD i 0 then
            some (⟨AssetId.new first.1.script_pubkey net,
              qs.getD i 0, metadata⟩ : OpenAsset)
          else none)) ∧
       r[marker]? = some none ∧
       (∀ j, marker + qs.length < j → j < r.length → r[j]? = some none)) ∧
    compute_assets 30 exPrevOuts 2 exTx [0, 10, 6, 0, 7, 3] .prod exMeta
      = some (.ok [none, exAsset1 10, none, exAsset2 6, none, exAsset2 7,
          exAsset3 3]) ∧
    compute_assets 30 exPrevOuts 0 exTx [14] .prod exMeta = some (.error ()) := by
  have hA : ∀ (fuel : Nat) (first : TxOut × Option OpenAsset)
      (others : List (TxOut × Option OpenAsset)) (marker : Nat)
      (txn : Transaction) (qs : List Nat) (net : Network) (metadata : Metadata),
      StreamPos (first :: others) →
      qs.length ≤ txn.output.length - 1 →
      (qs.drop marker).sum + (first :: others).length + 1 ≤ fuel →
      (match specTransfers metadata (qs.drop marker)
          (assetUnits (first :: others)) with
       | none => True
       | some (.error _) =>
         compute_assets fuel (first :: others) marker txn qs net metadata
           = some (.error ())
       | some (.ok l) =>
         compute_assets fuel (first :: others) marker txn qs net metadata
           = some (.ok ((List.range marker).map (fun i =>
                 if i < qs.length ∧ 0 < qs.getD i 0 then
                   some (⟨AssetId.new first.1.script_pubkey net,
                     qs.getD i 0, metadata⟩ : OpenAsset)
                 else none)
               ++ [none] ++ l
               ++ List.replicate (txn.output.length - (qs.length + 1)) none))) := by
    intro fuel first others marker txn qs net metadata hpos hlen hfuel
    have hsim := transferOutputs_sim metadata (qs.drop marker)
      ⟨first :: others, none, 0⟩ fuel hfuel hpos (fun h => absurd rfl h)
    have hunits : stateUnits ⟨first :: others, none, 0⟩
        = assetUnits (first :: others) := rfl
    rw [hunits] at hsim
    have hnn : ¬ ¬ (qs.length ≤ txn.output.length - 1) := fun h => h hlen
    have hshape : compute_assets fuel (first :: others) marker txn qs net metadata
        = if ¬ (qs.length ≤ txn.output.length - 1) then some (.error ())
          else
            match transferOutputs fuel metadata (qs.drop marker)
                ⟨first :: others, none, 0⟩ with
            | none => none
            | some (.error e) => some (.error e)
            | some (.ok transfers) =>
              some (.ok ((List.range marker).map (fun i =>
                    if i < qs.length ∧ 0 < qs.getD i 0 then
                      some (⟨AssetId.new first.1.script_pubkey net,
                        qs.getD i 0, metadata⟩ : OpenAsset)
                    else none)
                  ++ [none] ++ transfers
                  ++ List.replicate (txn.output.length - (qs.length + 1)) none)) :=
      rfl
    cases hspec : specTransfers metadata (qs.drop marker)
        (assetUnits (first :: others)) with
    | none => trivial
    | some r =>
      match r with
      | .error e =>
        rw [hspec] at hsim
        have hto : transferOutputs fuel metadata (qs.drop marker)
            ⟨first :: others, none, 0⟩ = some (.error ()) := hsim
        cases e
        rw [hshape, if_neg hnn, hto]
      | .ok l =>
        rw [hspec] at hsim
        have hto : transferOutputs fuel metadata (qs.drop marker)
            ⟨first :: others, none, 0⟩ = some (.ok l) := hsim
        rw [hshape, if_neg hnn, hto]
  refine ⟨hA, ?_, by decide, by decide⟩
  intro fuel first others marker txn qs net metadata l r hpos hlen hfuel hm
    hspec hca
  have h := hA fuel first others marker txn qs net metadata hpos hlen hfuel
  rw [hspec] at h
  rw [hca] at h
  have hr : r = (List.range marker).map (fun i =>
        if i < qs.length ∧ 0 < qs.getD i 0 then
          some (⟨AssetId.new first.1.script_pubkey net,
            qs.getD i 0, metadata⟩ : OpenAsset)
        else none)
      ++ [none] ++ l
      ++ List.replicate (txn.output.length - (qs.length + 1)) none := by
    simpa using h
  have hll : l.length = qs.length - marker := by
    rw [specTransfers_length metadata _ _ _ hspec]
    simp
  subst hr
  refine ⟨?_, ?_, ?_⟩
  · intro i hi
    rw [List.getElem?_append_left (by simp; omega),
      List.getElem?_append_left (by simp; omega),
      List.getElem?_append_left (by simp; omega), List.getElem?_map,
      List.getElem?_range hi]
    rfl
  · rw [List.getElem?_append_left (by simp),
      List.getElem?_append_left (by simp),
      List.getElem?_append_right (by simp)]
    simp
  · intro j hj1 hj2
    simp only [List.length_append, List.length_map, List.length_range,
      List.length_replicate, List.length_cons, List.length_nil] at hj2
    rw [List.getElem?_append_right (by simp; omega),
      List.getElem?_replicate_of_lt (by simp; omega)]

/-- Witness for C2: the protocol-spec example instantiates conjunct (A), and
its hypotheses hold by evaluation. -/
theorem compute_assets_follows_spec_witness :
    compute_assets 30 exPrevOuts 2 exTx [0, 10, 6, 0, 7, 3] .prod exMeta
      = some (.ok ((List.range 2).map (fun i =>
            if i < ([0, 10, 6, 0, 7, 3] : List Nat).length
                ∧ 0 < ([0, 10, 6, 0, 7, 3] : List Nat).getD i 0 then
              some (⟨AssetId.new exScript1 .prod,
                ([0, 10, 6, 0, 7, 3] : List Nat).getD i 0, exMeta⟩ : OpenAsset)
            else none)
          ++ [none] ++ [exAsset2 6, none, exAsset2 7, exAsset3 3]
          ++ List.replicate 0 none)) := by
  have h := compute_assets_follows_spec.1 30 (⟨1000, exScript1⟩, exAsset2 3)
    [(⟨0, []⟩, exAsset2 2), (⟨0, []⟩, none), (⟨0, []⟩, exAsset2 5),
     (⟨0, []⟩, exAsset2 3), (⟨0, []⟩, exAsset3 9)]
    2 exTx [0, 10, 6, 0, 7, 3] .prod exMeta
    (streamPos_of_b _ (by decide)) (by decide) (by decide)
  have hs : specTransfers exMeta (([0, 10, 6, 0, 7, 3] : List Nat).drop 2)
      (assetUnits ((⟨1000, exScript1⟩, exAsset2 3) ::
        [(⟨0, []⟩, exAsset2 2), (⟨0, []⟩, none), (⟨0, []⟩, exAsset2 5),
         (⟨0, []⟩, exAsset2 3), (⟨0, []⟩, exAsset3 9)]))
      = some (.ok [exAsset2 6, none, exAsset2 7, exAsset3 3]) := by decide
  rw [hs] at h
  exact h

/-- Claim C10: `compute_assets` terminates whenever the total quantity
demanded by the transfer outputs is at most the total asset quantity carried
by the previous outputs (with fuel beyond demand + number of previous
outputs, the fuelled walk completes); and on a concrete input where a
transfer output demands 2 units while the previous outputs carry only 1, the
unit-consumption loop never terminates (no amount of fuel completes it). -/
theorem compute_assets_termination :
    (∀ (fuel : Nat) (prev_outs : List (TxOut × Option OpenAsset)) (marker : Nat)
       (txn : Transaction) (qs : List Nat) (net : Network) (metadata : Metadata),
       (qs.drop marker).sum ≤ streamQty prev_outs →
       (qs.drop marker).sum + prev_outs.length + 1 ≤ fuel →
       ∃ r, compute_assets fuel prev_outs marker txn qs net metadata = some r) ∧
    (∀ fuel : Nat, compute_assets fuel c10PrevOuts 0 c10Tx [2] .prod exMeta = none) := by
  constructor
  · intro fuel prev_outs marker txn qs net metadata hcover hfuel
    apply Option.isSome_iff_exists.mp
    unfold compute_assets
    split
    · rfl
    · match prev_outs, hcover, hfuel with
      | [], _, _ => rfl
      | first :: others, hcover, hfuel =>
        obtain ⟨r, hr⟩ := transferOutputs_terminates metadata (qs.drop marker)
          ⟨first :: others, none, 0⟩ fuel
          (by simp at hfuel ⊢; omega)
          (by intro h; exact absurd rfl h)
          (by
            have : unitCount ⟨first :: others, none, 0⟩
                = streamQty (first :: others) := by simp [unitCount]
            omega)
        rw [hr]
        match r with
        | .error e => rfl
        | .ok t => rfl
  · intro fuel
    match fuel with
    | 0 => rfl
    | 1 => rfl
    | k + 2 =>
      have h2 : consumeLoop (k + 2) ⟨c10PrevOuts, none, 0⟩ 2 none
          = consumeLoop k ⟨[], none, 0⟩ 1 (some (AssetId.new exScript1 .prod)) := by rfl
      have hcl : consumeLoop (k + 2) ⟨c10PrevOuts, none, 0⟩ 2 none = none := by
        rw [h2]
        exact consumeLoop_stuck k 1 _ one_ne_zero
      have ht : transferOutputs (k + 2) exMeta [2] ⟨c10PrevOuts, none, 0⟩ = none := by
        unfold transferOutputs
        rw [hcl]
      have hshape : compute_assets (k + 2) c10PrevOuts 0 c10Tx [2] .prod exMeta
          = match transferOutputs (k + 2) exMeta [2] ⟨c10PrevOuts, none, 0⟩ with
            | none => none
            | some (.error e) => some (.error e)
            | some (.ok transfers) =>
              some (.ok ([] ++ [none] ++ transfers ++ List.replicate 0 none)) := rfl
      rw [hshape, ht]

/-- Witness for `compute_assets_termination` at the protocol-spec example
(demand 16 ≤ supply 22, fuel 30). -/
theorem compute_assets_termination_witness :
    (List.drop 2 [0, 10, 6, 0, 7, 3]).sum ≤ streamQty exPrevOuts ∧
    (List.drop 2 [0, 10, 6, 0, 7, 3]).sum + exPrevOuts.length + 1 ≤ 30 ∧
    ∃ r, compute_assets 30 exPrevOuts 2 exTx [0, 10, 6, 0, 7, 3] .prod exMeta = some r :=
  ⟨by decide, by decide,
   compute_assets_termination.1 30 exPrevOuts 2 exTx [0, 10, 6, 0, 7, 3] .prod exMeta
     (by decide) (by decide)⟩

lemma assocGet_assocReplace_self {α β : Type} [DecidableEq α] :
    ∀ (m : List (α × β)) (k : α) (v : β), (assocGet m k).isSome →
      assocGet (assocReplace m k v) k = some v := by
  intro m k v
  induction m with
  | nil => intro h; simp [assocGet] at h
  | cons p rest ih =>
    obtain ⟨a, b⟩ := p
    intro h
    by_cases hp : a = k
    · subst hp
      simp [assocReplace, assocGet]
    · have h' : (assocGet rest k).isSome := by simpa [assocGet, hp] using h
      simp [assocReplace, assocGet, hp, ih h']

lemma assocGet_assocReplace_other {α β : Type} [DecidableEq α] :
    ∀ (m : List (α × β)) (k k' : α) (v : β), k' ≠ k →
      assocGet (assocReplace m k v) k' = assocGet m k' := by
  intro m k k' v hne
  induction m with
  | nil => simp [assocReplace]
  | cons p rest ih =>
    obtain ⟨a, b⟩ := p
    by_cases hp : a = k
    · subst hp
      have h1 : ¬ a = k' := fun h => hne h.symm
      simp [assocReplace, assocGet, h1, ih]
    · by_cases hp' : a = k'
      · simp [assocReplace, assocGet, hp, hp', hne]
      · simp [assocReplace, assocGet, hp, hp', ih]

lemma assocGet_append_single {α β : Type} [DecidableEq α] :
    ∀ (m : List (α × β)) (k : α) (v : β), assocGet m k = none →
      assocGet (m ++ [(k, v)]) k = some v := by
  intro m k v
  induction m with
  | nil => intro _; simp [assocGet]
  | cons p rest ih =>
    obtain ⟨a, b⟩ := p
    intro h
    by_cases hp : a = k
    · simp [assocGet, hp] at h
    · have h' : assocGet rest k = none := by simpa [assocGet, hp] using h
      simp [assocGet, hp, ih h']

lemma assocGet_append_single_other {α β : Type} [DecidableEq α] :
    ∀ (m : List (α × β)) (k k' : α) (v : β), k' ≠ k →
      assocGet (m ++ [(k, v)]) k' = assocGet m k' := by
  intro m k k' v hne
  induction m with
  | nil => simp [assocGet, Ne.symm hne]
  | cons p rest ih =>
    obtain ⟨a, b⟩ := p
    by_cases hp' : a = k'
    · simp [assocGet, hp']
    · simp [assocGet, hp', ih]

lemma assocGet_assocInsert_self {α β : Type} [DecidableEq α] (m : List (α × β))
    (k : α) (v : β) : assocGet (assocInsert m k v) k = some v := by
  unfold assocInsert
  by_cases hp : (assocGet m k).isSome
  · simp only [hp, if_true]
    exact assocGet_assocReplace_self m k v hp
  · simp only [hp, if_false]
    exact assocGet_append_single m k v (by
      cases hg : assocGet m k
      · rfl
      · rw [hg] at hp; simp at hp)

lemma assocGet_assocInsert_other {α β : Type} [DecidableEq α] (m : List (α × β))
    (k k' : α) (v : β) (hne : k' ≠ k) :
    assocGet (assocInsert m k v) k' = assocGet m k' := by
  unfold assocInsert
  split
  · exact assocGet_assocReplace_other m k k' v hne
  · exact assocGet_append_single_other m k k' v hne

lemma historyPush_mem_self (h : List (ScriptHash × List TxHistoryInfo))
    (sh : ScriptHash) (e : TxHistoryInfo) :
    e ∈ ((assocGet (historyPush h sh e) sh).getD []) := by
  unfold historyPush
  rw [assocGet_assocInsert_self]
  simp

lemma historyPush_mem_preserve (h : List (ScriptHash × List TxHistoryInfo))
    (sh sh' : ScriptHash) (e e' : TxHistoryInfo)
    (hmem : e ∈ ((assocGet h sh).getD [])) :
    e ∈ ((assocGet (historyPush h sh' e') sh).getD []) := by
  unfold historyPush
  by_cases hs : sh = sh'
  · subst hs
    rw [assocGet_assocInsert_self]
    simp only [Option.getD_some]
    exact List.mem_append_left _ hmem
  · rw [assocGet_assocInsert_other _ _ _ _ hs]
    exact hmem

lemma mem_foldl_historyPush :
    ∀ (entries : List (ScriptHash × TxHistoryInfo))
      (h0 : List (ScriptHash × List TxHistoryInfo)) (sh : ScriptHash) (e : TxHistoryInfo),
      (sh, e) ∈ entries ∨ e ∈ ((assocGet h0 sh).getD []) →
      e ∈ ((assocGet (entries.foldl (fun h p => historyPush h p.1 p.2) h0) sh).getD []) := by
  intro entries
  induction entries with
  | nil =>
    intro h0 sh e hm
    rcases hm with hm | hm
    · simp at hm
    · simpa using hm
  | cons p rest ih =>
    intro h0 sh e hm
    simp only [List.foldl_cons]
    rcases hm with hm | hm
    · rcases List.mem_cons.mp hm with heq | hmem
      · apply ih
        right
        rw [← heq]
        exact historyPush_mem_self h0 sh e
      · exact ih _ _ _ (Or.inl hmem)
    · exact ih _ _ _ (Or.inr (historyPush_mem_preserve h0 sh p.1 e p.2 hm))

lemma colored_spendable (txo : TxOut) (c : ColorId) (b : Script)
    (h : split_color txo.script_pubkey = some (c, b)) : is_spendable txo = true := by
  unfold split_color at h
  split at h
  · rename_i hcond
    simp only [Bool.and_eq_true, beq_iff_eq, decide_eq_true_eq] at hcond
    unfold is_spendable
    rw [hcond.1.1.2]
    rfl
  · exact absurd h (by simp)

lemma split_color_base_ne (s : Script) (c : ColorId) (b : Script)
    (h : split_color s = some (c, b)) : b ≠ s := by
  unfold split_color at h
  split at h
  · rename_i hcond
    simp only [Bool.and_eq_true, decide_eq_true_eq] at hcond
    simp only [Option.some.injEq, Prod.mk.injEq] at h
    intro heq
    have hb : b.length = s.length - 35 := by rw [← h.2]; simp
    have : s.length - 35 < s.length := by omega
    rw [heq] at hb
    omega
  · exact absurd h (by simp)

lemma addrBlock_filter_nil (p : IndexRow → Bool)
    (hp : ∀ a, p (.addr a) = false) (b : Bool) (o : Option (List Byte)) :
    ((if b then
        match o with
        | some address => [IndexRow.addr address]
        | none => []
      else []).filter p) = [] := by
  cases b
  · simp
  · cases o
    · simp
    · simp [hp]

lemma isFundingRowFor_addr (i : Nat) (a : List Byte) :
    isFundingRowFor i (.addr a) = false := rfl

lemma filter_funding_out_of_range (s2a : Script → Option (List Byte))
    (cfg : IndexerConfig) (txid : Txid) (h : Nat) :
    ∀ (outs : List TxOut) (idx i : Nat), i < idx →
      (indexOutputRows s2a cfg txid h idx outs).filter (isFundingRowFor i) = [] := by
  intro outs
  induction outs with
  | nil => intro idx i _; simp [indexOutputRows]
  | cons txo rest ih =>
    intro idx i hlt
    have hne : (idx == i) = false := by simp; omega
    simp only [indexOutputRows, List.filter_append]
    rw [ih (idx + 1) i (Nat.lt_succ_of_lt hlt), List.append_nil]
    split
    · rw [List.filter_append, addrBlock_filter_nil _ (isFundingRowFor_addr i) _ _,
        List.append_nil]
      split
      · simp [isFundingRowFor, hne]
      · simp [isFundingRowFor, hne]
    · simp

lemma filter_funding_colored (s2a : Script → Option (List Byte)) (cfg : IndexerConfig)
    (txid : Txid) (h : Nat) :
    ∀ (outs : List TxOut) (idx j : Nat) (txo : TxOut) (c : ColorId) (s : Script),
      outs[j]? = some txo →
      split_color txo.script_pubkey = some (c, s) →
      (indexOutputRows s2a cfg txid h idx outs).filter (isFundingRowFor (idx + j))
        = [.history (compute_script_hash txo.script_pubkey) h
             (.Funding txid (idx + j) c txo.value none),
           .history (compute_script_hash s) h
             (.Funding txid (idx + j) c txo.value none)] := by
  intro outs
  induction outs with
  | nil => intro idx j txo c s hg; simp at hg
  | cons t rest ih =>
    intro idx j txo c s hget hsplit
    match j with
    | 0 =>
      simp only [List.getElem?_cons_zero, Option.some.injEq] at hget
      subst hget
      have hsp : is_spendable t = true := colored_spendable t c s hsplit
      simp only [indexOutputRows, List.filter_append, Nat.add_zero]
      rw [filter_funding_out_of_range s2a cfg txid h rest (idx + 1) idx (Nat.lt_succ_self idx),
        List.append_nil]
      rw [if_pos (by simp [hsp])]
      rw [hsplit]
      rw [List.filter_append, addrBlock_filter_nil _ (isFundingRowFor_addr idx) _ _,
        List.append_nil]
      simp [isFundingRowFor]
    | j' + 1 =>
      simp only [List.getElem?_cons_succ] at hget
      have hne : (idx == idx + (j' + 1)) = false := by simp
      simp only [indexOutputRows, List.filter_append]
      have hrest := ih (idx + 1) j' txo c s hget hsplit
      rw [show idx + 1 + j' = idx + (j' + 1) by omega] at hrest
      rw [hrest]
      have hhead :
          ((if is_spendable t || cfg.index_unspendables then
              (match split_color t.script_pubkey with
               | some (color_id, script) =>
                 [IndexRow.history (compute_script_hash t.script_pubkey) h
                    (.Funding txid idx color_id t.value none),
                  IndexRow.history (compute_script_hash script) h
                    (.Funding txid idx color_id t.value none)]
               | none =>
                 [IndexRow.history (compute_script_hash t.script_pubkey) h
                    (.Funding txid idx defaultColorId t.value none)])
              ++ (if cfg.address_search then
                    match s2a t.script_pubkey with
                    | some address => [IndexRow.addr address]
                    | none => []
                  else [])
            else []).filter (isFundingRowFor (idx + (j' + 1)))) = [] := by
        split
        · rw [List.filter_append,
            addrBlock_filter_nil _ (isFundingRowFor_addr (idx + (j' + 1))) _ _,
            List.append_nil]
          split
          · simp [isFundingRowFor, hne]
          · simp [isFundingRowFor, hne]
        · simp
      rw [hhead]
      simp

lemma filter_spending_out_of_range (txid : Txid) (h : Nat)
    (txos : List (OutPoint × TxOut)) :
    ∀ (ins : List TxIn) (idx i : Nat), i < idx →
      (indexInputRows txid h txos idx ins).filter (isSpendingRowFor i) = [] := by
  intro ins
  induction ins with
  | nil => intro idx i _; simp [indexInputRows]
  | cons txi rest ih =>
    intro idx i hlt
    have hne : (idx == i) = false := by simp; omega
    simp only [indexInputRows, List.filter_append]
    rw [ih (idx + 1) i (Nat.lt_succ_of_lt hlt), List.append_nil]
    split
    · split
      · simp
      · simp [isSpendingRowFor, hne]
    · simp

lemma filter_spending_single (txid : Txid) (h : Nat) (txos : List (OutPoint × TxOut)) :
    ∀ (ins : List TxIn) (idx j : Nat) (txi : TxIn) (prev_txo : TxOut),
      ins[j]? = some txi →
      has_prevout txi = true →
      assocGet txos txi.previous_output = some prev_txo →
      (indexInputRows txid h txos idx ins).filter (isSpendingRowFor (idx + j))
        = [.history (compute_script_hash prev_txo.script_pubkey) h
             (.Spending txid (idx + j) txi.previous_output.txid txi.previous_output.vout
               (((split_color prev_txo.script_pubkey).map Prod.fst).getD defaultColorId)
               prev_txo.value)] := by
  intro ins
  induction ins with
  | nil => intro idx j txi prev_txo hg; simp at hg
  | cons t rest ih =>
    intro idx j txi prev_txo hget hprev hassoc
    match j with
    | 0 =>
      simp only [List.getElem?_cons_zero, Option.some.injEq] at hget
      subst hget
      simp only [indexInputRows, List.filter_append, Nat.add_zero]
      rw [filter_spending_out_of_range txid h txos rest (idx + 1) idx (Nat.lt_succ_self idx),
        List.append_nil]
      rw [if_pos hprev, hassoc]
      simp [isSpendingRowFor]
    | j' + 1 =>
      simp only [List.getElem?_cons_succ] at hget
      have hne : (idx == idx + (j' + 1)) = false := by simp
      simp only [indexInputRows, List.filter_append]
      have hrest := ih (idx + 1) j' txi prev_txo hget hprev hassoc
      rw [show idx + 1 + j' = idx + (j' + 1) by omega] at hrest
      rw [hrest]
      have hhead :
          ((if has_prevout t then
              match assocGet txos t.previous_output with
              | none => []
              | some prev =>
                [IndexRow.history (compute_script_hash prev.script_pubkey) h
                   (.Spending txid idx t.previous_output.txid t.previous_output.vout
                     (((split_color prev.script_pubkey).map Prod.fst).getD defaultColorId)
                     prev.value),
                 IndexRow.edge t.previous_output.txid t.previous_output.vout txid idx]
            else []).filter (isSpendingRowFor (idx + (j' + 1)))) = [] := by
        split
        · split
          · simp
          · simp [isSpendingRowFor, hne]
        · simp
      rw [hhead]
      simp

lemma filter_funding_inputRows_nil (txid : Txid) (h : Nat)
    (txos : List (OutPoint × TxOut)) (i : Nat) :
    ∀ (ins : List TxIn) (idx : Nat),
      (indexInputRows txid h txos idx ins).filter (isFundingRowFor i) = [] := by
  intro ins
  induction ins with
  | nil => intro idx; simp [indexInputRows]
  | cons txi rest ih =>
    intro idx
    simp only [indexInputRows, List.filter_append]
    rw [ih (idx + 1), List.append_nil]
    split
    · split
      · simp
      · simp [isFundingRowFor]
    · simp

lemma isSpendingRowFor_addr (j : Nat) (a : List Byte) :
    isSpendingRowFor j (.addr a) = false := rfl

lemma filter_spending_outputRows_nil (s2a : Script → Option (List Byte))
    (cfg : IndexerConfig) (txid : Txid) (h : Nat) (j : Nat) :
    ∀ (outs : List TxOut) (idx : Nat),
      (indexOutputRows s2a cfg txid h idx outs).filter (isSpendingRowFor j) = [] := by
  intro outs
  induction outs with
  | nil => intro idx; simp [indexOutputRows]
  | cons txo rest ih =>
    intro idx
    simp only [indexOutputRows, List.filter_append]
    rw [ih (idx + 1), List.append_nil]
    split
    · rw [List.filter_append, addrBlock_filter_nil _ (isSpendingRowFor_addr j) _ _,
        List.append_nil]
      split
      · simp [isSpendingRowFor]
      · simp [isSpendingRowFor]
    · simp

/-- Claim C3 (counterexample): for the concrete transaction `c3Tx2`, which
spends one colored output, confirmed-block indexing emits exactly **one**
Spending history row (keyed by the colored script's hash), not two. -/
theorem colored_spending_rows_cex :
    ((index_transaction (fun _ => none) ⟨false, false⟩ c3Tx2 7 c3PrevTxos).filter
      isSpendingRow).length = 1 ∧
    ((index_transaction (fun _ => none) ⟨false, false⟩ c3Tx2 7 c3PrevTxos).filter
      isSpendingRow).length ≠ 2 := by
  refine ⟨by rfl, by decide⟩

/-- Claim C3 (amended): a colored transaction output produces exactly two
Funding history rows — one under the hash of the full colored script, one
under the hash of the underlying script — in confirmed-block indexing
(`index_transaction`), and the same two entries in mempool insertion
(`Mempool::add`); spending a colored output produces two Spending entries in
mempool insertion, but exactly **one** Spending row in confirmed-block
indexing, keyed by the hash of the full colored previous script.  All
entries generated by `Mempool::add` land in the mempool's history map under
their script hash. -/
theorem colored_rows_duplication :
    (∀ (s2a : Script → Option (List Byte)) (cfg : IndexerConfig) (tx : Transaction)
       (h : Nat) (txos : List (OutPoint × TxOut)) (i : Nat) (txo : TxOut)
       (c : ColorId) (s : Script),
       tx.output[i]? = some txo →
       split_color txo.script_pubkey = some (c, s) →
       (index_transaction s2a cfg tx h txos).filter (isFundingRowFor i)
         = [.history (compute_script_hash txo.script_pubkey) h
              (.Funding tx.malfix_txid i c txo.value none),
            .history (compute_script_hash s) h
              (.Funding tx.malfix_txid i c txo.value none)] ∧
       compute_script_hash s ≠ compute_script_hash txo.script_pubkey) ∧
    (∀ (s2a : Script → Option (List Byte)) (cfg : IndexerConfig) (tx : Transaction)
       (h : Nat) (txos : List (OutPoint × TxOut)) (j : Nat) (txi : TxIn)
       (prev_txo : TxOut),
       tx.input[j]? = some txi →
       has_prevout txi = true →
       assocGet txos txi.previous_output = some prev_txo →
       (index_transaction s2a cfg tx h txos).filter (isSpendingRowFor j)
         = [.history (compute_script_hash prev_txo.script_pubkey) h
              (.Spending tx.malfix_txid j txi.previous_output.txid
                txi.previous_output.vout
                (((split_color prev_txo.script_pubkey).map Prod.fst).getD defaultColorId)
                prev_txo.value)]) ∧
    (∀ (txid : Txid) (tx : Transaction) (flag : Bool) (i : Nat) (txo : TxOut)
       (c : ColorId) (s : Script),
       tx.output[i]? = some txo →
       split_color txo.script_pubkey = some (c, s) →
       (compute_script_hash txo.script_pubkey, TxHistoryInfo.Funding txid i c txo.value none)
         ∈ fundingEntries txid tx flag ∧
       (compute_script_hash s, TxHistoryInfo.Funding txid i c txo.value none)
         ∈ fundingEntries txid tx flag) ∧
    (∀ (txid : Txid) (tx : Transaction) (prevouts : List (Nat × TxOut)) (j : Nat)
       (txi : TxIn) (txo : TxOut) (c : ColorId) (s : Script),
       (j, txo) ∈ prevouts →
       tx.input.get? j = some txi →
       split_color txo.script_pubkey = some (c, s) →
       (compute_script_hash txo.script_pubkey,
         TxHistoryInfo.Spending txid j txi.previous_output.txid
           txi.previous_output.vout c txo.value) ∈ spendingEntries txid tx prevouts ∧
       (compute_script_hash s,
         TxHistoryInfo.Spending txid j txi.previous_output.txid
           txi.previous_output.vout c txo.value) ∈ spendingEntries txid tx prevouts) ∧
    (∀ (cfg : MempoolConfig) (txos : List (OutPoint × TxOut)) (mp : Mempool)
       (time : Nat) (tx : Transaction) (sh : ScriptHash) (e : TxHistoryInfo),
       (sh, e) ∈ fundingEntries tx.malfix_txid tx cfg.index_unspendables
           ++ spendingEntries tx.malfix_txid tx (extract_tx_prevouts tx txos) →
       e ∈ ((assocGet (Mempool.addPhase2Tx cfg txos mp time tx).history sh).getD [])) := by
  refine ⟨?_, ?_, ?_, ?_, ?_⟩
  · intro s2a cfg tx h txos i txo c s hget hsplit
    constructor
    · unfold index_transaction
      rw [List.filter_append, filter_funding_inputRows_nil, List.append_nil]
      have := filter_funding_colored s2a cfg tx.malfix_txid h tx.output 0 i txo c s hget hsplit
      simpa using this
    · intro heq
      exact split_color_base_ne txo.script_pubkey c s hsplit (by simpa [compute_script_hash] using heq)
  · intro s2a cfg tx h txos j txi prev_txo hget hprev hassoc
    unfold index_transaction
    rw [List.filter_append, filter_spending_outputRows_nil, List.nil_append]
    have := filter_spending_single tx.malfix_txid h txos tx.input 0 j txi prev_txo hget hprev hassoc
    simpa using this
  · intro txid tx flag i txo c s hget hsplit
    have hmem : (i, txo) ∈ tx.output.enum := by
      rw [List.mem_enum_iff_getElem?]
      exact hget
    have hmemf : (i, txo) ∈ tx.output.enum.filter
        (fun p => is_spendable p.2 || flag) :=
      List.mem_filter.mpr ⟨hmem, by simp [colored_spendable txo c s hsplit]⟩
    constructor
    · exact List.mem_flatMap.mpr ⟨(i, txo), hmemf, by rw [hsplit]; simp⟩
    · exact List.mem_flatMap.mpr ⟨(i, txo), hmemf, by rw [hsplit]; simp⟩
  · intro txid tx prevouts j txi txo c s hmem hget hsplit
    constructor
    · exact List.mem_flatMap.mpr ⟨(j, txo), hmem, by rw [hget, hsplit]; simp⟩
    · exact List.mem_flatMap.mpr ⟨(j, txo), hmem, by rw [hget, hsplit]; simp⟩
  · intro cfg txos mp time tx sh e hmem
    exact mem_foldl_historyPush _ mp.history sh e (Or.inl hmem)

/-- Witness for `colored_rows_duplication` at a transaction with one colored
output. -/
theorem colored_rows_duplication_witness :
    (index_transaction (fun _ => none) ⟨false, false⟩ c3Tx1 3
        [(⟨9, 0⟩, ⟨7, p2pkhScript⟩)]).filter (isFundingRowFor 0)
      = [.history (compute_script_hash coloredScript) 3
           (.Funding 1 0 (0xc1 :: List.replicate 32 0x3c) 5 none),
         .history (compute_script_hash p2pkhScript) 3
           (.Funding 1 0 (0xc1 :: List.replicate 32 0x3c) 5 none)] ∧
    compute_script_hash p2pkhScript ≠ compute_script_hash coloredScript :=
  colored_rows_duplication.1 (fun _ => none) ⟨false, false⟩ c3Tx1 3
    [(⟨9, 0⟩, ⟨7, p2pkhScript⟩)] 0 ⟨5, coloredScript⟩
    (0xc1 :: List.replicate 32 0x3c) p2pkhScript (by rfl) (by rfl)

lemma string_join_cons (a : String) (l : List String) :
    String.join (a :: l) = a ++ String.join l := by
  simp [String.join_eq]
  rfl

lemma statusConcat_foldl (mp : Mempool) :
    ∀ (l : List (Txid × Option BlockId)) (buf : String),
      l.foldl (fun b tb => b ++ statusHashPart tb.1
        (get_electrum_height tb.2 (tb.2.isNone && mp.has_unconfirmed_parents tb.1))) buf
      = buf ++ statusConcat mp l := by
  intro l
  induction l with
  | nil =>
    intro buf
    simp [statusConcat, String.join]
  | cons x xs ih =>
    intro buf
    simp only [List.foldl_cons]
    rw [ih]
    simp only [statusConcat, List.map_cons]
    rw [string_join_cons, String.append_assoc]

/-- Claim C6: `blockchain.scripthash.subscribe`, when the combined
confirmed-plus-mempool history fits within the transaction limit, returns
the digest of the concatenation of `"{txid}:{height}:"` over that history in
order — where the height is the confirming block height for a confirmed
transaction, 0 for a mempool transaction without unconfirmed parents and -1
for one with unconfirmed parents — and returns null for an empty history. -/
theorem scripthash_subscribe_status_hash (digest : String → List Byte)
    (confirming : Txid → Option BlockId) (rows : List TxHistoryRow) (mp : Mempool)
    (scripthash : ScriptHash) (txs_limit : Nat)
    (hlen : (Query.history_txids confirming rows mp scripthash (txs_limit + 1)).length
      ≤ txs_limit) :
    (Query.history_txids confirming rows mp scripthash (txs_limit + 1) ≠ [] →
      blockchain_scripthash_subscribe digest confirming rows mp scripthash txs_limit
        = .ok (some (digest (statusConcat mp
            (Query.history_txids confirming rows mp scripthash (txs_limit + 1)))))) ∧
    (Query.history_txids confirming rows mp scripthash (txs_limit + 1) = [] →
      blockchain_scripthash_subscribe digest confirming rows mp scripthash txs_limit
        = .ok none) := by
  constructor
  · intro hne
    unfold blockchain_scripthash_subscribe get_history
    simp only [hlen, if_true]
    unfold get_status_hash
    rw [if_neg (by simpa using hne)]
    rw [statusConcat_foldl]
    simp
  · intro he
    unfold blockchain_scripthash_subscribe get_history
    simp only [hlen, if_true]
    rw [he]
    rfl

/-- Witness for `scripthash_subscribe_status_hash`: one confirmed
transaction, empty mempool, length digest. -/
theorem scripthash_subscribe_status_hash_witness :
    (Query.history_txids witConfirming witRows witEmptyMempool p2pkhScript 2).length ≤ 1 ∧
    blockchain_scripthash_subscribe (fun s => [s.length]) witConfirming witRows
      witEmptyMempool p2pkhScript 1
      = .ok (some ((fun s : String => [s.length])
          (statusConcat witEmptyMempool
            (Query.history_txids witConfirming witRows witEmptyMempool p2pkhScript 2)))) :=
  ⟨by rfl,
   (scripthash_subscribe_status_hash (fun s => [s.length]) witConfirming witRows
      witEmptyMempool p2pkhScript 1 (by rfl)).1 (by decide)⟩

/-- Witness for `tx_history_key_order` at concrete keys. -/
theorem tx_history_key_order_witness :
    bytesLt (historyRowKey 72 (List.replicate 32 0) 3 [0])
      (historyRowKey 72 (List.replicate 32 0) 5 [1]) ∧
    (bytesLe (historyScanStart 72 (List.replicate 32 0) 2)
      (historyRowKey 72 (List.replicate 32 0) 2 [7]) ↔ 2 ≤ 2) :=
  ⟨tx_history_key_order.1 72 (List.replicate 32 0) 3 5 [0] [1] (by norm_num) (by norm_num),
   tx_history_key_order.2 72 (List.replicate 32 0) 2 2 [7] (by norm_num) (by norm_num)⟩

/-- Witness for `make_fee_histogram_bins` at two concrete fee infos. -/
theorem make_fee_histogram_bins_witness :
    (sortedEntriesDesc [feeInfoA, feeInfoB]).Perm [feeInfoA, feeInfoB] ∧
    (sortedEntriesDesc [feeInfoA, feeInfoB]).Pairwise DescRate ∧
    ∃ gs : List (List TxFeeInfo),
      gs.flatten = sortedEntriesDesc [feeInfoA, feeInfoB] ∧
      (∀ g ∈ gs, g ≠ []) ∧
      make_fee_histogram [feeInfoA, feeInfoB]
        = gs.map (fun g => (rateOfLast g, vsizeSum g)) ∧
      (∀ g ∈ gs.dropLast, VSIZE_BIN_WIDTH ≤ vsizeSum g) ∧
      (∀ g ∈ gs, ∀ e ∈ g, rateOfLast g ≤ e.fee_per_vbyte) :=
  make_fee_histogram_bins [feeInfoA, feeInfoB] (by decide)

end Esplora
